import Mathlib

/-! Cinder RBD volume driver (`pkg/volume/cinder/drivers/rbd.go`).

A shallow embedding of the driver's descriptor decoder (`ToRBDVolume`) and of its
`Attach` / `Detach` / `Format` operations, followed by theorems about them.

Conventions of the embedding.

* Go strings are Lean `String`s.  Go strings are byte sequences; the embedding covers the
  strings that are valid UTF-8, for which substring search, byte-wise ordering and
  rune-wise trimming agree with the same operations on code points.
* A Go `error` produced by `os/exec` is represented by its message (`err.Error()`), the only
  thing the driver reads from it.
* The outside world (search path, external processes) is a state machine `Env σ`: every
  `exec.LookPath` and every `exec.Command(...).CombinedOutput()` is a transition that
  returns a response and a successor state.  `Format` logs each call with its response.
* `encoding/json` is library code; it is modelled on JSON trees (the text produced by
  `json.Marshal` is represented by the tree it denotes), with the nesting limit of the
  scanner (Go 1.15 and later).  A Go value that `json.Marshal` does not write as a value of
  its own kind (a `[]byte`, a value with its own marshalling method, a string that is not
  valid UTF-8) has a constructor of its own in `GoValue`.
-/

namespace Drivers

/-! ## Strings (`strings`, `unicode`, `fmt`) -/

/-- Go `unicode.IsSpace`: the Latin-1 spaces and the code points with the White_Space
property. -/
def isSpace (c : Char) : Bool :=
  let n := c.toNat
  n == 0x09 || n == 0x0A || n == 0x0B || n == 0x0C || n == 0x0D || n == 0x20 ||
  n == 0x85 || n == 0xA0 || n == 0x1680 || (0x2000 ≤ n && n ≤ 0x200A) ||
  n == 0x2028 || n == 0x2029 || n == 0x202F || n == 0x205F || n == 0x3000

/-- Go `strings.TrimSpace` on the runes of a string: all leading and trailing white space
removed. -/
def trimSpaceChars (cs : List Char) : List Char :=
  ((cs.dropWhile isSpace).reverse.dropWhile isSpace).reverse

/-- Go `strings.TrimSpace`. -/
def TrimSpace (s : String) : String := String.mk (trimSpaceChars s.data)

/-- Whether `sub` is an initial segment of `cs`. -/
def startsWith : List Char → List Char → Bool
  | _, [] => true
  | [], _ :: _ => false
  | c :: cs, d :: ds => c == d && startsWith cs ds

/-- Whether `sub` occurs in `cs` as a contiguous block. -/
def containsChars : List Char → List Char → Bool
  | [], sub => startsWith [] sub
  | c :: cs, sub => startsWith (c :: cs) sub || containsChars cs sub

/-- Go `strings.Contains(s, substr)`: case-sensitive substring test. -/
def Contains (s substr : String) : Bool := containsChars s.data substr.data

/-- Text of `err.Error()` for an `*exec.ExitError` of a process that exited with status `n`
(`os.ProcessState.String`). -/
def exitStatus (n : Nat) : String := "exit status " ++ toString n

/-! ## JSON values (`encoding/json`) -/

/-- A JSON document as a tree.  A number is kept as its literal. -/
inductive Json where
  | null
  | bool (b : Bool)
  | number (lit : String)
  | string (s : String)
  | array (xs : List Json)
  | object (kvs : List (String × Json))
deriving Repr

/-- The Go values an `interface{}` of a volume descriptor may hold, by what `json.Marshal`
does with them.

* `nil`: the nil interface, and nil pointers, slices and maps (written `null`).
* `bool b`: a Go `bool`.
* `number lit`: a value of a built-in integer or float type that is finite; `lit` is the
  literal written.
* `string s`: a Go `string` that is valid UTF-8.
* `badString written`: a Go `string` that is not valid UTF-8; `written` is the text
  `json.Marshal` writes for it, with U+FFFD in place of every invalid byte.
* `slice xs`: a non-nil slice or an array, other than a `[]byte`, with elements `xs`.
* `map kvs`: a non-nil map with string keys.
* `other written`: every other value, by the outcome of `json.Marshal` on it: `some j`
  when it writes `j` (a `[]byte`, written as a base64 string; values with a `MarshalJSON`
  or `MarshalText` method; a `json.Number`; structs and pointers), `none` when it returns
  an error (channels, functions, complex numbers, NaN and infinite floats, cyclic
  values). -/
inductive GoValue where
  | nil
  | bool (b : Bool)
  | number (lit : String)
  | string (s : String)
  | badString (written : String)
  | slice (xs : List GoValue)
  | map (kvs : List (String × GoValue))
  | other (written : Option Json)
deriving Repr

/-- The untyped volume descriptor, `map[string]interface{}`, as its list of entries, the
keys being valid UTF-8.  A Go map holds each key once (`keysUnique`). -/
abbrev Descriptor := List (String × GoValue)

/-- Keys of a Go map are pairwise distinct. -/
def keysUnique (d : Descriptor) : Prop := (d.map Prod.fst).Nodup

/-- Go string ordering `a < b` (lexicographic on bytes; on valid UTF-8 the same as
lexicographic on code points). -/
def ltChars : List Char → List Char → Bool
  | [], [] => false
  | [], _ :: _ => true
  | _ :: _, [] => false
  | c :: cs, d :: ds => c.toNat < d.toNat || (c == d && ltChars cs ds)

/-- Go string `<`. -/
def keyLt (a b : String) : Bool := ltChars a.data b.data

/-- Insert a member into a key-sorted member list. -/
def insertMember (m : String × Json) : List (String × Json) → List (String × Json)
  | [] => [m]
  | x :: rest => if keyLt m.1 x.1 then m :: x :: rest else x :: insertMember m rest

/-- Members sorted by key: `json.Marshal` writes the entries of a map in key order. -/
def sortMembers : List (String × Json) → List (String × Json)
  | [] => []
  | m :: rest => insertMember m (sortMembers rest)

mutual
/-- Go `json.Marshal` on one value: the JSON tree written, or `none` when it returns an
error. -/
def marshalValue : GoValue → Option Json
  | .nil => some .null
  | .bool b => some (.bool b)
  | .number lit => some (.number lit)
  | .string s => some (.string s)
  | .badString written => some (.string written)
  | .slice xs => (marshalElems xs).map Json.array
  | .map kvs => (marshalMembers kvs).map (fun ms => Json.object (sortMembers ms))
  | .other written => written
/-- Marshal the elements of a slice. -/
def marshalElems : List GoValue → Option (List Json)
  | [] => some []
  | x :: xs =>
    match marshalValue x, marshalElems xs with
    | some j, some js => some (j :: js)
    | _, _ => none
/-- Marshal the entries of a map, in the order given. -/
def marshalMembers : List (String × GoValue) → Option (List (String × Json))
  | [] => some []
  | (k, v) :: rest =>
    match marshalValue v, marshalMembers rest with
    | some j, some ms => some ((k, j) :: ms)
    | _, _ => none
end

/-- Errors of `encoding/json`: `unsupported` for the errors of `json.Marshal`
(`UnsupportedTypeError`, `UnsupportedValueError`, `MarshalerError`), `malformed msg` for a
`SyntaxError`, and `unmarshalType value goType` for `UnmarshalTypeError{Value, Type}`. -/
inductive JsonError where
  | unsupported
  | malformed (msg : String)
  | unmarshalType (value : String) (goType : String)
deriving DecidableEq, Repr

/-- Go `json.Marshal(volumeData)` for a descriptor. -/
def Marshal (volumeData : Descriptor) : Except JsonError Json :=
  match marshalValue (.map volumeData) with
  | some data => .ok data
  | none => .error .unsupported

mutual
/-- Nesting depth of a document: the number of arrays and objects open at its deepest
point. -/
def jsonDepth : Json → Nat
  | .array xs => jsonDepthElems xs + 1
  | .object kvs => jsonDepthMembers kvs + 1
  | _ => 0
/-- Largest depth among the elements of an array. -/
def jsonDepthElems : List Json → Nat
  | [] => 0
  | x :: xs => max (jsonDepth x) (jsonDepthElems xs)
/-- Largest depth among the members of an object. -/
def jsonDepthMembers : List (String × Json) → Nat
  | [] => 0
  | (_, v) :: rest => max (jsonDepth v) (jsonDepthMembers rest)
end

/-- The `maxNestingDepth` of `encoding/json` (Go 1.15 and later): the scanner refuses a
document with more than this many arrays and objects open at once. -/
def maxNestingDepth : Nat := 10000

/-! ## The typed volume record -/

/-- Go `type RBDVolume struct`.  A `[]string` field is `none` for the nil slice. -/
structure RBDVolume where
  Keyring : String := ""
  AuthEnabled : Bool := false
  AuthUser : String := ""
  Hosts : Option (List String) := none
  Ports : Option (List String) := none
  Name : String := ""
  AccessMode : String := ""
  VolumeType : String := ""
deriving DecidableEq, Repr

/-- The fields of `RBDVolume`. -/
inductive Field where
  | keyring | authEnabled | authUser | hosts | ports | name | accessMode | volumeType
deriving DecidableEq, Repr

/-- The `json:"..."` tag of each field. -/
def Field.jsonName : Field → String
  | .keyring => "keyring"
  | .authEnabled => "auth_enabled"
  | .authUser => "auth_username"
  | .hosts => "hosts"
  | .ports => "ports"
  | .name => "name"
  | .accessMode => "access_mode"
  | .volumeType => "volume_type"

/-- The fields in declaration order. -/
def fields : List Field :=
  [.keyring, .authEnabled, .authUser, .hosts, .ports, .name, .accessMode, .volumeType]

/-- Simple case folding of a rune, as far as it can reach an ASCII letter: `A`..`Z` fold to
`a`..`z`, the Kelvin sign U+212A folds to `k` and the long s U+017F folds to `s`. -/
def foldRune (c : Char) : Char :=
  let n := c.toNat
  if 65 ≤ n ∧ n ≤ 90 then Char.ofNat (n + 32)
  else if n = 0x212A then Char.ofNat 107
  else if n = 0x17F then Char.ofNat 115
  else c

/-- Case-insensitive comparison used by `json.Unmarshal` to match an object key against a
field name (`equalFold` of `encoding/json`). -/
def equalFold (name key : String) : Bool :=
  name.data.map foldRune == key.data.map foldRune

/-- Field lookup of `json.Unmarshal` for one object key: an exact match wins, otherwise the
first field that matches case-insensitively. -/
def findFieldFrom : List Field → Option Field → String → Option Field
  | [], f, _ => f
  | ff :: rest, f, key =>
    if ff.jsonName = key then some ff
    else findFieldFrom rest
      (match f with
       | some g => some g
       | none => if equalFold ff.jsonName key then some ff else none) key

/-- Field of `RBDVolume` that receives the value of object key `key`, if any. -/
def findField (key : String) : Option Field := findFieldFrom fields none key

/-- `decodeState.saveError`: the first error is kept, decoding goes on. -/
def saveError (saved new : Option JsonError) : Option JsonError :=
  match saved with
  | some e => some e
  | none => new

/-- Store a JSON value into a Go `string`: a string is stored, `null` leaves the old value,
everything else is an `UnmarshalTypeError`. -/
def storeString (j : Json) (old : String) : String × Option JsonError :=
  match j with
  | .string s => (s, none)
  | .null => (old, none)
  | .bool _ => (old, some (.unmarshalType "bool" "string"))
  | .number _ => (old, some (.unmarshalType "number" "string"))
  | .array _ => (old, some (.unmarshalType "array" "string"))
  | .object _ => (old, some (.unmarshalType "object" "string"))

/-- Store a JSON value into a Go `bool`. -/
def storeBool (j : Json) (old : Bool) : Bool × Option JsonError :=
  match j with
  | .bool b => (b, none)
  | .null => (old, none)
  | .string _ => (old, some (.unmarshalType "string" "bool"))
  | .number _ => (old, some (.unmarshalType "number" "bool"))
  | .array _ => (old, some (.unmarshalType "array" "bool"))
  | .object _ => (old, some (.unmarshalType "object" "bool"))

/-- Store the elements of a JSON array into the backing array of a `[]string`: element `i`
is stored into cell `i` of `backing` when there is one, into a fresh `""` otherwise. -/
def storeElems : List Json → List String → List String × Option JsonError
  | [], _ => ([], none)
  | j :: js, backing =>
    let r := storeString j (backing.headD "")
    let rs := storeElems js backing.tail
    (r.1 :: rs.1, saveError r.2 rs.2)

/-- Store a JSON value into a Go `[]string` whose elements are `old` and whose backing
array goes on with the cells `spare` (what an earlier, longer decode left past the
length; cells never written hold `""`).  An array is stored cell by cell over the backing
array, the slice is cut to the number of elements, and the cells past them stay as spare;
an empty array gives a fresh empty, non-nil slice; `null` gives the nil slice; everything
else is an `UnmarshalTypeError`.  Returns the elements, the spare cells and the error. -/
def storeSlice (j : Json) (old : Option (List String)) (spare : List String) :
    Option (List String) × List String × Option JsonError :=
  match j with
  | .array xs =>
    let backing := old.getD [] ++ spare
    let r := storeElems xs backing
    (some r.1, if xs.isEmpty then [] else backing.drop xs.length, r.2)
  | .null => (none, [], none)
  | .bool _ => (old, spare, some (.unmarshalType "bool" "[]string"))
  | .number _ => (old, spare, some (.unmarshalType "number" "[]string"))
  | .string _ => (old, spare, some (.unmarshalType "string" "[]string"))
  | .object _ => (old, spare, some (.unmarshalType "object" "[]string"))

/-- State of `json.Unmarshal` while it decodes into an `RBDVolume`: the record, the spare
cells of the backing arrays of `Hosts` and `Ports`, and the saved error. -/
structure DecodeState where
  volume : RBDVolume
  hostsSpare : List String
  portsSpare : List String
  savedError : Option JsonError

/-- One member of the JSON object decoded into the record: a key that matches no field is
skipped, otherwise the value is stored into the matching field. -/
def decodeMember (st : DecodeState) (kv : String × Json) : DecodeState :=
  match findField kv.1 with
  | none => st
  | some .keyring =>
    let r := storeString kv.2 st.volume.Keyring
    { st with volume := { st.volume with Keyring := r.1 },
              savedError := saveError st.savedError r.2 }
  | some .authEnabled =>
    let r := storeBool kv.2 st.volume.AuthEnabled
    { st with volume := { st.volume with AuthEnabled := r.1 },
              savedError := saveError st.savedError r.2 }
  | some .authUser =>
    let r := storeString kv.2 st.volume.AuthUser
    { st with volume := { st.volume with AuthUser := r.1 },
              savedError := saveError st.savedError r.2 }
  | some .hosts =>
    let r := storeSlice kv.2 st.volume.Hosts st.hostsSpare
    { st with volume := { st.volume with Hosts := r.1 },
              hostsSpare := r.2.1,
              savedError := saveError st.savedError r.2.2 }
  | some .ports =>
    let r := storeSlice kv.2 st.volume.Ports st.portsSpare
    { st with volume := { st.volume with Ports := r.1 },
              portsSpare := r.2.1,
              savedError := saveError st.savedError r.2.2 }
  | some .name =>
    let r := storeString kv.2 st.volume.Name
    { st with volume := { st.volume with Name := r.1 },
              savedError := saveError st.savedError r.2 }
  | some .accessMode =>
    let r := storeString kv.2 st.volume.AccessMode
    { st with volume := { st.volume with AccessMode := r.1 },
              savedError := saveError st.savedError r.2 }
  | some .volumeType =>
    let r := storeString kv.2 st.volume.VolumeType
    { st with volume := { st.volume with VolumeType := r.1 },
              savedError := saveError st.savedError r.2 }

/-- Go `json.Unmarshal(data, &volume)` for a `volume` whose slices have no spare cells (the
zero record of `ToRBDVolume`).  The document is scanned first: nested deeper than
`maxNestingDepth` it is refused with a `SyntaxError` and nothing is decoded.  Then the
members of the object are decoded in document order; `null` leaves the record alone; any
other document is an `UnmarshalTypeError`.  Returns the record as it stands after decoding
and the saved error. -/
def Unmarshal (data : Json) (volume : RBDVolume) : RBDVolume × Option JsonError :=
  if maxNestingDepth < jsonDepth data then
    (volume, some (.malformed "exceeded max depth"))
  else
    match data with
    | .object kvs =>
      let st := kvs.foldl decodeMember ⟨volume, [], [], none⟩
      (st.volume, st.savedError)
    | .null => (volume, none)
    | .bool _ => (volume, some (.unmarshalType "bool" "drivers.RBDVolume"))
    | .number _ => (volume, some (.unmarshalType "number" "drivers.RBDVolume"))
    | .string _ => (volume, some (.unmarshalType "string" "drivers.RBDVolume"))
    | .array _ => (volume, some (.unmarshalType "array" "drivers.RBDVolume"))

/-- `RBDDriver.ToRBDVolume`: marshal the descriptor, unmarshal into a fresh `RBDVolume`;
`(nil, err)` is `.error err`, `(&volume, nil)` is `.ok volume`. -/
def ToRBDVolume (volumeData : Descriptor) : Except JsonError RBDVolume :=
  match Marshal volumeData with
  | .error err => .error err
  | .ok data =>
    match Unmarshal data {} with
    | (_, some err) => .error err
    | (volume, none) => .ok volume

/-! ## The outside world -/

/-- Result of `exec.Command(...).CombinedOutput()`: the combined stdout/stderr and the
error (`none` for `nil`, otherwise the text of `err.Error()`). -/
structure CmdResult where
  out : String
  err : Option String
deriving DecidableEq, Repr

/-- The environment of the driver as a state machine over states `σ`.  `LookPath file s` is
`exec.LookPath(file)` in state `s` (`none` when it returns an error); `CombinedOutput path
args s` is `exec.Command(path, args...).CombinedOutput()`.  Both return the successor
state. -/
structure Env (σ : Type) where
  LookPath : String → σ → Option String × σ
  CombinedOutput : String → List String → σ → CmdResult × σ

/-- One interaction with the environment, with its response. -/
inductive Event where
  | look (file : String) (found : Option String)
  | exec (path : String) (args : List String) (res : CmdResult)
deriving DecidableEq, Repr

/-- The Go `error` values the driver returns: an `encoding/json` error passed through, or
an error made by `fmt.Errorf` (its message). -/
inductive GoError where
  | json (e : JsonError)
  | errorf (msg : String)
deriving DecidableEq, Repr

/-- What a driver call leaves behind: the returned `error` (`none` for `nil`), the
interactions with the environment in the order they happened, and the final state of the
environment. -/
structure Outcome (σ : Type) where
  err : Option GoError
  trace : List Event
  state : σ

/-- The commands of a trace: the executed processes, without the path lookups. -/
def commands (tr : List Event) : List Event :=
  tr.filter (fun e => match e with
    | .exec _ _ _ => true
    | .look _ _ => false)

/-! ## The driver -/

/-- `RBDDriver.Attach`: decode, log, return. -/
def Attach {σ : Type} (_env : Env σ) (volumeData : Descriptor) (_globalPDPath : String)
    (s : σ) : Outcome σ :=
  match ToRBDVolume volumeData with
  | .error err => ⟨some (.json err), [], s⟩
  | .ok _volume => ⟨none, [], s⟩

/-- `RBDDriver.Detach`: decode, log, return. -/
def Detach {σ : Type} (_env : Env σ) (volumeData : Descriptor) (_globalPDPath : String)
    (s : σ) : Outcome σ :=
  match ToRBDVolume volumeData with
  | .error err => ⟨some (.json err), [], s⟩
  | .ok _volume => ⟨none, [], s⟩

/-- `RBDDriver.unmapRBD`: run `rbd unmap <mappedDevice>` and return its error. -/
def unmapRBD {σ : Type} (env : Env σ) (rbdPath mappedDevice : String) (s : σ) :
    Option String × Event × σ :=
  let r := env.CombinedOutput rbdPath ["unmap", mappedDevice] s
  (r.1.err, .exec rbdPath ["unmap", mappedDevice] r.1, r.2)

/-- Lines 117-136 of `Format`: `rbd map <name>`; when it fails with an error whose text
contains `status 22`, `rbd flatten <name>` and one more `rbd map <name>`.  Returns
`mappedDeviceByte` or the error `Format` returns. -/
def mapVolume {σ : Type} (env : Env σ) (rbdPath name : String) (s : σ) :
    Except GoError String × List Event × σ :=
  let r1 := env.CombinedOutput rbdPath ["map", name] s
  let e1 := Event.exec rbdPath ["map", name] r1.1
  match r1.1.err with
  | none => (.ok r1.1.out, [e1], r1.2)
  | some err =>
    if Contains err "status 22" then
      let r2 := env.CombinedOutput rbdPath ["flatten", name] r1.2
      let e2 := Event.exec rbdPath ["flatten", name] r2.1
      match r2.1.err with
      | some _errFlatten =>
        (.error (.errorf ("rbd map " ++ name ++ " failed: " ++ err)), [e1, e2], r2.2)
      | none =>
        let r3 := env.CombinedOutput rbdPath ["map", name] r2.2
        let e3 := Event.exec rbdPath ["map", name] r3.1
        match r3.1.err with
        | some err3 =>
          (.error (.errorf ("rbd map " ++ name ++ " failed: " ++ err3)), [e1, e2, e3], r3.2)
        | none => (.ok r3.1.out, [e1, e2, e3], r3.2)
    else
      (.error (.errorf ("rbd map " ++ name ++ " failed: " ++ err)), [e1], r1.2)

/-- Lines 141-158 of `Format`: `file -s <mappedDevice>`, and `mkfs.<fsType> <mappedDevice>`
unless the output of `file` contains `<fsType> filesystem`.  The deferred unmap is not
part of this block. -/
def inspectAndMkfs {σ : Type} (env : Env σ) (filePath name fsType mappedDevice : String)
    (s : σ) : Option GoError × List Event × σ :=
  let r := env.CombinedOutput filePath ["-s", mappedDevice] s
  let e := Event.exec filePath ["-s", mappedDevice] r.1
  match r.1.err with
  | some err => (some (.errorf ("file -s on volume " ++ name ++ " failed: " ++ err)), [e], r.2)
  | none =>
    if !Contains r.1.out (fsType ++ " filesystem") then
      let l := env.LookPath ("mkfs." ++ fsType) r.2
      let el := Event.look ("mkfs." ++ fsType) l.1
      match l.1 with
      | none => (some (.errorf ("mkfs." ++ fsType ++ " not found")), [e, el], l.2)
      | some mkfsPath =>
        let m := env.CombinedOutput mkfsPath [mappedDevice] l.2
        let em := Event.exec mkfsPath [mappedDevice] m.1
        match m.1.err with
        | some err => (some (.errorf ("rbd format failed: " ++ err)), [e, el, em], m.2)
        | none => (none, [e, el, em], m.2)
    else (none, [e], r.2)

/-- `RBDDriver.Format`.  The deferred `unmapRBD` runs when the function returns, after the
return value is fixed; its own result is dropped. -/
def Format {σ : Type} (env : Env σ) (volumeData : Descriptor) (fsType : String) (s : σ) :
    Outcome σ :=
  match ToRBDVolume volumeData with
  | .error err => ⟨some (.json err), [], s⟩
  | .ok volume =>
    let l1 := env.LookPath "rbd" s
    let el1 := Event.look "rbd" l1.1
    match l1.1 with
    | none => ⟨some (.errorf "rbd command not found"), [el1], l1.2⟩
    | some rbdPath =>
      let l2 := env.LookPath "file" l1.2
      let el2 := Event.look "file" l2.1
      match l2.1 with
      | none => ⟨some (.errorf "file command not found"), [el1, el2], l2.2⟩
      | some filePath =>
        match mapVolume env rbdPath volume.Name l2.2 with
        | (.error err, tr, s3) => ⟨some err, [el1, el2] ++ tr, s3⟩
        | (.ok mappedDeviceByte, tr, s3) =>
          let mappedDevice := TrimSpace mappedDeviceByte
          let body := inspectAndMkfs env filePath volume.Name fsType mappedDevice s3
          let u := unmapRBD env rbdPath mappedDevice body.2.2
          ⟨body.1, [el1, el2] ++ tr ++ body.2.1 ++ [u.2.1], u.2.2⟩

/-! ## Sample environments -/

/-- State of the sample host: whether the image has been flattened and whether the device
holds a filesystem. -/
structure Host where
  flattened : Bool := false
  formatted : Bool := false
deriving DecidableEq, Repr

/-- Behaviour of the tools on the sample host. -/
structure HostSpec where
  /-- Tools missing from the search path. -/
  missing : List String := []
  /-- Result of `rbd map` while the image is not flattened. -/
  mapResult : CmdResult := ⟨"/dev/rbd0\n", none⟩
  /-- Result of `rbd map` once the image is flattened. -/
  mapFlattened : CmdResult := ⟨"/dev/rbd1\n", none⟩
  /-- Result of `rbd flatten`. -/
  flattenResult : CmdResult := ⟨"", none⟩
  /-- Result of `file -s` on a blank device. -/
  fileBlank : CmdResult := ⟨"/dev/rbd0: data", none⟩
  /-- Result of `file -s` on a device that `mkfs` has formatted. -/
  fileFormatted : CmdResult := ⟨"/dev/rbd0: Linux rev 1.0 ext4 filesystem data", none⟩
  /-- Result of `mkfs.<fsType>`. -/
  mkfsResult : CmdResult := ⟨"", none⟩

/-- A host on which every tool lives in `/usr/bin` and behaves as `spec` says. -/
def hostEnv (spec : HostSpec) : Env Host where
  LookPath file s :=
    (if spec.missing.contains file then none else some ("/usr/bin/" ++ file), s)
  CombinedOutput path args s :=
    match args with
    | ["map", _] => (if s.flattened then spec.mapFlattened else spec.mapResult, s)
    | ["flatten", _] =>
      (spec.flattenResult,
        if spec.flattenResult.err = none then { s with flattened := true } else s)
    | ["unmap", _] => (⟨"", none⟩, s)
    | ["-s", _] => (if s.formatted then spec.fileFormatted else spec.fileBlank, s)
    | [_] =>
      (spec.mkfsResult,
        if spec.mkfsResult.err = none then { s with formatted := true } else s)
    | _ => (⟨"", some ("exec: " ++ path ++ ": unexpected arguments")⟩, s)

/-- A host on which `rbd map` exits with status 22 and `rbd flatten` exits with status 1. -/
def hostFlattenFails : Env Host :=
  hostEnv { mapResult := ⟨"", some (exitStatus 22)⟩, flattenResult := ⟨"", some (exitStatus 1)⟩ }

/-- A host without `rbd` and without `file`. -/
def hostNoTools : Env Host := hostEnv { missing := ["rbd", "file"] }

/-- A host without `file`. -/
def hostNoFile : Env Host := hostEnv { missing := ["file"] }

/-- A host with all tools, a mappable image and a blank device. -/
def hostBlank : Env Host := hostEnv {}

/-- The descriptor `{"name": "vol1"}`. -/
def vol1 : Descriptor := [("name", .string "vol1")]

/-- A host on which `mkfs.<fsType>` exits with status 1. -/
def hostMkfsFails : Env Host := hostEnv { mkfsResult := ⟨"", some (exitStatus 1)⟩ }

/-- A host on which `rbd map` exits with status 22 until the image is flattened. -/
def hostManyLayers : Env Host :=
  hostEnv { mapResult := ⟨"rbd: map failed: (22) Invalid argument\n", some (exitStatus 22)⟩ }

/-- A host on which `rbd map` exits with status 220 until the image is flattened. -/
def hostStatus220 : Env Host :=
  hostEnv { mapResult := ⟨"", some (exitStatus 220)⟩ }

/-- A host on which the device already holds an ext4 filesystem. -/
def hostExt4 : Env Host :=
  hostEnv { fileBlank := ⟨"/dev/rbd0: ext4 filesystem data", none⟩ }

/-- A host on which `rbd map` prints a warning line before the device line. -/
def hostWarning : Env Host :=
  hostEnv { mapResult := ⟨"rbd: warning: image already mapped\n/dev/rbd0\n", none⟩ }

/-- A host with the `file` and `mkfs.xfs` of a common Linux system: after `mkfs.xfs`,
`file -s` describes the device as `SGI XFS filesystem data`. -/
def hostXfs : Env Host :=
  hostEnv { fileFormatted :=
    ⟨"/dev/rbd0: SGI XFS filesystem data (blksz 4096, inosz 512, v2 dirs)", none⟩ }

/-! ## Vocabulary of the statements -/

/-- An `rbd map` command: a process run with the two arguments `map <name>`. -/
def isMap : Event → Bool
  | .exec _ ["map", _] _ => true
  | _ => false

/-- An `rbd flatten` command: a process run with the two arguments `flatten <name>`. -/
def isFlatten : Event → Bool
  | .exec _ ["flatten", _] _ => true
  | _ => false

/-- An `rbd unmap` command: a process run with the two arguments `unmap <device>`. -/
def isUnmap : Event → Bool
  | .exec _ ["unmap", _] _ => true
  | _ => false

/-- An invocation of `mkfs.<fsType>`: the only process `Format` runs with a single
argument (`rbd map`, `rbd flatten`, `rbd unmap` and `file -s` all take two). -/
def isMkfsExec : Event → Bool
  | .exec _ [_] _ => true
  | _ => false

/-- A lookup or an invocation of `mkfs.<fsType>`. -/
def isMkfs (fsType : String) : Event → Bool
  | .look file _ => file == "mkfs." ++ fsType
  | .exec _ [_] _ => true
  | _ => false

/-- An interaction that happens before a device is mapped: a path lookup of `rbd` or
`file`, a failed `rbd map`, or an `rbd flatten`. -/
def beforeMapped (p name : String) (e : Event) : Prop :=
  (∃ r, e = .look "rbd" r) ∨ (∃ r, e = .look "file" r) ∨
  (∃ o err, e = .exec p ["map", name] ⟨o, some err⟩) ∨ (∃ r, e = .exec p ["flatten", name] r)

/-- An interaction of the block after mapping: `file -s dev`, the lookup of
`mkfs.<fsType>`, or `mkfs.<fsType> dev`. -/
def afterMapped (fsType dev : String) (e : Event) : Prop :=
  (∃ q r, e = .exec q ["-s", dev] r) ∨ (∃ r, e = .look ("mkfs." ++ fsType) r) ∨
  (∃ q r, e = .exec q [dev] r)

/-- The text after the last newline of `cs`. -/
def afterLastNewline (cs : List Char) : List Char :=
  (cs.reverse.takeWhile (fun c => c.toNat != 10)).reverse

/-- The wording "last line (trimmed)" of the interface description of `rbd map`: the last
line of the output (a newline that ends the output closes that line), white space
trimmed. -/
def lastLineTrimmed (o : String) : String :=
  let cs := o.data
  let body := if cs.getLast? = some (Char.ofNat 10) then cs.dropLast else cs
  String.mk (trimSpaceChars (afterLastNewline body))

/-! ## Vocabulary of the statements about decoding -/

/-- The declared Go type of a field: `string`, `bool` or `[]string`. -/
inductive Kind where
  | string | bool | strings
deriving DecidableEq, Repr

/-- Declared type of each field of `RBDVolume`. -/
def Field.kind : Field → Kind
  | .authEnabled => .bool
  | .hosts => .strings
  | .ports => .strings
  | _ => .string

/-- A Go `string` that is valid UTF-8. -/
def isStringValue : GoValue → Bool
  | .string _ => true
  | _ => false

/-- The value has the declared type: a Go `string` that is valid UTF-8, a Go `bool`, a
slice of such strings. -/
def hasDeclaredType : Kind → GoValue → Bool
  | .string, .string _ => true
  | .bool, .bool _ => true
  | .strings, .slice xs => xs.all isStringValue
  | _, _ => false

/-- The field whose tag is exactly `key`. -/
def exactField (key : String) : Option Field := fields.find? (fun f => f.jsonName == key)

/-- Every recognized key of the descriptor holds a value of the declared type. -/
def wellTyped (d : Descriptor) : Bool :=
  d.all (fun kv => match exactField kv.1 with
    | some f => hasDeclaredType f.kind kv.2
    | none => true)

/-- Some recognized key of the descriptor holds a value that is not of the declared
type. -/
def illTyped (d : Descriptor) : Bool :=
  d.any (fun kv => match exactField kv.1 with
    | some f => !hasDeclaredType f.kind kv.2
    | none => false)

/-- A JSON element that cannot be stored into a `string`. -/
def jsonElemClashes : Json → Bool
  | .string _ => false
  | .null => false
  | _ => true

/-- A JSON value that cannot be stored into a field of the declared type: it is not
`null`, and it is of another kind than the field (string, boolean, array), or it is an
array with an element that is neither a string nor `null`. -/
def jsonClashes : Kind → Json → Bool
  | _, .null => false
  | .string, .string _ => false
  | .bool, .bool _ => false
  | .strings, .array xs => xs.any jsonElemClashes
  | _, _ => true

/-- Some recognized key of the descriptor holds a value that `json.Marshal` cannot write,
or writes as a JSON value that clashes with the declared type of the field. -/
def hasClash (d : Descriptor) : Bool :=
  d.any (fun kv => match exactField kv.1 with
    | some f =>
      (match marshalValue kv.2 with
       | some j => jsonClashes f.kind j
       | none => true)
    | none => false)

/-- Every key of the descriptor that `json.Unmarshal` matches to a field is the tag of
that field, letter for letter. -/
def exactKeys (d : Descriptor) : Bool :=
  d.all (fun kv => match findField kv.1 with
    | some f => f.jsonName == kv.1
    | none => true)

/-- The descriptor can be serialized, to a document nested no deeper than
`maxNestingDepth`. -/
def marshalsWithinDepth (d : Descriptor) : Bool :=
  match Marshal d with
  | .ok data => decide (jsonDepth data ≤ maxNestingDepth)
  | .error _ => false

/-- The descriptor's string under `key`; `""` when absent. -/
def getString (d : Descriptor) (key : String) : String :=
  match d.lookup key with
  | some (.string s) => s
  | _ => ""

/-- The descriptor's bool under `key`; `false` when absent. -/
def getBool (d : Descriptor) (key : String) : Bool :=
  match d.lookup key with
  | some (.bool b) => b
  | _ => false

/-- The strings of a sequence of string values. -/
def stringsOf : List GoValue → List String
  | [] => []
  | .string s :: rest => s :: stringsOf rest
  | _ :: rest => stringsOf rest

/-- The descriptor's sequence of strings under `key`; the nil slice when absent. -/
def getStrings (d : Descriptor) (key : String) : Option (List String) :=
  match d.lookup key with
  | some (.slice xs) => some (stringsOf xs)
  | _ => none

/-- The record whose fields are the descriptor's values under the recognized keys, with
the zero value for absent keys. -/
def projection (d : Descriptor) : RBDVolume where
  Keyring := getString d "keyring"
  AuthEnabled := getBool d "auth_enabled"
  AuthUser := getString d "auth_username"
  Hosts := getStrings d "hosts"
  Ports := getStrings d "ports"
  Name := getString d "name"
  AccessMode := getString d "access_mode"
  VolumeType := getString d "volume_type"

/-- Go `json.Marshal` of a `[]string`: `null` for the nil slice. -/
def encodeStrings : Option (List String) → Json
  | none => .null
  | some xs => .array (xs.map Json.string)

/-- Go `json.Marshal(volume)` for an `RBDVolume`: the members in declaration order, under
their tags. -/
def encodeVolume (v : RBDVolume) : List (String × Json) :=
  [("keyring", .string v.Keyring), ("auth_enabled", .bool v.AuthEnabled),
   ("auth_username", .string v.AuthUser), ("hosts", encodeStrings v.Hosts),
   ("ports", encodeStrings v.Ports), ("name", .string v.Name),
   ("access_mode", .string v.AccessMode), ("volume_type", .string v.VolumeType)]

/-- A JSON string. -/
def isJsonString : Json → Bool
  | .string _ => true
  | _ => false

/-- The JSON value has the declared type. -/
def jsonHasType : Kind → Json → Bool
  | .string, .string _ => true
  | .bool, .bool _ => true
  | .strings, .array js => js.all isJsonString
  | _, _ => false

/-- The strings of a list of JSON strings. -/
def jsonStrings : List Json → List String
  | [] => []
  | .string s :: rest => s :: jsonStrings rest
  | _ :: rest => jsonStrings rest

/-- The value of one field of a record. -/
inductive FieldValue where
  | str (s : String)
  | flag (b : Bool)
  | strs (xs : Option (List String))
deriving DecidableEq, Repr

/-- Read a field of a record. -/
def RBDVolume.get (v : RBDVolume) : Field → FieldValue
  | .keyring => .str v.Keyring
  | .authEnabled => .flag v.AuthEnabled
  | .authUser => .str v.AuthUser
  | .hosts => .strs v.Hosts
  | .ports => .strs v.Ports
  | .name => .str v.Name
  | .accessMode => .str v.AccessMode
  | .volumeType => .str v.VolumeType

/-- The field value a JSON value of the declared type stands for. -/
def fieldValueOf : Kind → Json → FieldValue
  | .string, .string s => .str s
  | .bool, .bool b => .flag b
  | .strings, .array js => .strs (some (jsonStrings js))
  | .string, _ => .str ""
  | .bool, _ => .flag false
  | .strings, _ => .strs none

/-- A member of the marshalled descriptor that decodes without error: its key matches no
field, or it is the tag of a field and the value has the declared type. -/
def goodMember (kv : String × Json) : Prop :=
  ∀ f, findField kv.1 = some f → f.jsonName = kv.1 ∧ jsonHasType f.kind kv.2 = true

/-- The descriptor `{"Name": "vol1"}`. -/
def capitalName : Descriptor := [("Name", .string "vol1")]

/-- The descriptor `{"name": "vol1", "size": NaN}`. -/
def withNaN : Descriptor := [("name", .string "vol1"), ("size", .other none)]

/-- The descriptor `{"name": "vol1", "hosts": [nil]}`. -/
def nilHost : Descriptor := [("name", .string "vol1"), ("hosts", .slice [.nil])]

/-- The descriptor `{"name": "vol1", "hosts": true}`. -/
def boolHosts : Descriptor := [("name", .string "vol1"), ("hosts", .bool true)]

/-- The descriptor `{"name": "vol1", "hosts": ["10.0.0.2", "10.0.0.1"], "ports": ["6789",
"6789"], "auth_enabled": true, "size": 10}`. -/
def fullVolume : Descriptor :=
  [("name", .string "vol1"), ("hosts", .slice [.string "10.0.0.2", .string "10.0.0.1"]),
   ("ports", .slice [.string "6789", .string "6789"]), ("auth_enabled", .bool true),
   ("size", .number "10")]

/-- The descriptor `{"name": []byte("abc")}`: `json.Marshal` writes a `[]byte` as the
base64 string `"YWJj"`. -/
def bytesName : Descriptor := [("name", .other (some (.string "YWJj")))]

/-- A descriptor with three keys that `json.Unmarshal` matches to `Hosts`:
`{"HOSTS": ["a", "b", "c"], "Hosts": ["x"], "hosts": [nil, nil, nil]}`. -/
def threeHosts : Descriptor :=
  [("HOSTS", .slice [.string "a", .string "b", .string "c"]),
   ("Hosts", .slice [.string "x"]),
   ("hosts", .slice [.nil, .nil, .nil])]

/-! ## Theorems -/

section FormatTheorems

variable {σ : Type}

/-! ### Shape of the two blocks of `Format` -/

theorem mapVolume_ok (env : Env σ) (p name o : String) (s s3 : σ) (tr : List Event)
    (h : mapVolume env p name s = (.ok o, tr, s3)) :
    ∃ pre, tr = pre ++ [.exec p ["map", name] ⟨o, none⟩] ∧
      ∀ e ∈ pre, beforeMapped p name e := by
  rcases h1 : env.CombinedOutput p ["map", name] s with ⟨⟨o1, e1⟩, s1⟩
  rcases h2 : env.CombinedOutput p ["flatten", name] s1 with ⟨⟨o2, e2⟩, s2⟩
  rcases h3 : env.CombinedOutput p ["map", name] s2 with ⟨⟨o3, e3⟩, s3⟩
  cases e1 with
  | none =>
    simp [mapVolume, h1] at h
    obtain ⟨rfl, rfl, rfl⟩ := h
    exact ⟨[], by simp, by simp⟩
  | some err =>
    by_cases h22 : Contains err "status 22" = true
    · cases e2 with
      | some ef => simp [mapVolume, h1, h2, h22] at h
      | none =>
        cases e3 with
        | some em => simp [mapVolume, h1, h2, h3, h22] at h
        | none =>
          simp [mapVolume, h1, h2, h3, h22] at h
          obtain ⟨rfl, rfl, rfl⟩ := h
          refine ⟨[.exec p ["map", name] ⟨o1, some err⟩, .exec p ["flatten", name] ⟨o2, none⟩],
            by simp, ?_⟩
          intro e he
          simp at he
          rcases he with rfl | rfl
          · exact Or.inr (Or.inr (Or.inl ⟨_, _, rfl⟩))
          · exact Or.inr (Or.inr (Or.inr ⟨_, rfl⟩))
    · simp [mapVolume, h1, h22] at h

theorem mapVolume_error (env : Env σ) (p name : String) (g : GoError) (s s3 : σ)
    (tr : List Event) (h : mapVolume env p name s = (.error g, tr, s3)) :
    ∀ e ∈ tr, beforeMapped p name e := by
  rcases h1 : env.CombinedOutput p ["map", name] s with ⟨⟨o1, e1⟩, s1⟩
  rcases h2 : env.CombinedOutput p ["flatten", name] s1 with ⟨⟨o2, e2⟩, s2⟩
  rcases h3 : env.CombinedOutput p ["map", name] s2 with ⟨⟨o3, e3⟩, s3⟩
  cases e1 with
  | none => simp [mapVolume, h1] at h
  | some err =>
    by_cases h22 : Contains err "status 22" = true
    · cases e2 with
      | some ef =>
        simp [mapVolume, h1, h2, h22] at h
        obtain ⟨-, rfl, -⟩ := h
        intro e he
        simp at he
        rcases he with rfl | rfl
        · exact Or.inr (Or.inr (Or.inl ⟨_, _, rfl⟩))
        · exact Or.inr (Or.inr (Or.inr ⟨_, rfl⟩))
      | none =>
        cases e3 with
        | some em =>
          simp [mapVolume, h1, h2, h3, h22] at h
          obtain ⟨-, rfl, -⟩ := h
          intro e he
          simp at he
          rcases he with rfl | rfl | rfl
          · exact Or.inr (Or.inr (Or.inl ⟨_, _, rfl⟩))
          · exact Or.inr (Or.inr (Or.inr ⟨_, rfl⟩))
          · exact Or.inr (Or.inr (Or.inl ⟨_, _, rfl⟩))
        | none => simp [mapVolume, h1, h2, h3, h22] at h
    · simp [mapVolume, h1, h22] at h
      obtain ⟨-, rfl, -⟩ := h
      intro e he
      simp at he
      subst he
      exact Or.inr (Or.inr (Or.inl ⟨_, _, rfl⟩))

/-- The block after mapping always starts with `file -s dev`; what follows is fixed by the
result of `file`, the substring test, the lookup of `mkfs.<fsType>` and the result of
`mkfs`. -/
theorem inspectAndMkfs_shape (env : Env σ) (filePath name fsType dev : String) (s : σ) :
    ∃ r rest, (inspectAndMkfs env filePath name fsType dev s).2.1
        = .exec filePath ["-s", dev] r :: rest ∧
      ((∃ err, r.err = some err ∧ rest = [] ∧
          (inspectAndMkfs env filePath name fsType dev s).1
            = some (.errorf ("file -s on volume " ++ name ++ " failed: " ++ err))) ∨
       (r.err = none ∧ Contains r.out (fsType ++ " filesystem") = true ∧ rest = [] ∧
          (inspectAndMkfs env filePath name fsType dev s).1 = none) ∨
       (r.err = none ∧ Contains r.out (fsType ++ " filesystem") = false ∧
          rest = [.look ("mkfs." ++ fsType) none] ∧
          (inspectAndMkfs env filePath name fsType dev s).1
            = some (.errorf ("mkfs." ++ fsType ++ " not found"))) ∨
       (r.err = none ∧ Contains r.out (fsType ++ " filesystem") = false ∧
          ∃ mkfsPath m, rest = [.look ("mkfs." ++ fsType) (some mkfsPath),
              .exec mkfsPath [dev] m] ∧
            (inspectAndMkfs env filePath name fsType dev s).1
              = m.err.map (fun err => .errorf ("rbd format failed: " ++ err)))) := by
  rcases h1 : env.CombinedOutput filePath ["-s", dev] s with ⟨⟨o1, e1⟩, s1⟩
  rcases h2 : env.LookPath ("mkfs." ++ fsType) s1 with ⟨l, s2⟩
  refine ⟨⟨o1, e1⟩, ?_⟩
  cases e1 with
  | some err => exact ⟨[], by simp [inspectAndMkfs, h1]⟩
  | none =>
    by_cases hc : Contains o1 (fsType ++ " filesystem") = true
    · exact ⟨[], by simp [inspectAndMkfs, h1, hc]⟩
    · cases l with
      | none => exact ⟨[.look ("mkfs." ++ fsType) none], by simp [inspectAndMkfs, h1, h2, hc]⟩
      | some q =>
        rcases h3 : env.CombinedOutput q [dev] s2 with ⟨⟨o3, e3⟩, s3⟩
        refine ⟨[.look ("mkfs." ++ fsType) (some q), .exec q [dev] ⟨o3, e3⟩], ?_⟩
        cases e3 <;> simp [inspectAndMkfs, h1, h2, h3, hc] <;>
          exact ⟨_, _, ⟨rfl, rfl⟩, rfl⟩

theorem inspectAndMkfs_events (env : Env σ) (filePath name fsType dev : String) (s : σ) :
    ∀ e ∈ (inspectAndMkfs env filePath name fsType dev s).2.1, afterMapped fsType dev e := by
  obtain ⟨r, rest, htr, hcases⟩ := inspectAndMkfs_shape env filePath name fsType dev s
  intro e he
  rw [htr] at he
  rcases List.mem_cons.mp he with rfl | he
  · exact Or.inl ⟨_, _, rfl⟩
  · rcases hcases with ⟨_, _, rfl, _⟩ | ⟨_, _, rfl, _⟩ | ⟨_, _, rfl, _⟩ |
      ⟨_, _, mkfsPath, m, rfl, _⟩
    · simp at he
    · simp at he
    · simp at he
      subst he
      exact Or.inr (Or.inl ⟨_, rfl⟩)
    · simp at he
      rcases he with rfl | rfl
      · exact Or.inr (Or.inl ⟨_, rfl⟩)
      · exact Or.inr (Or.inr ⟨_, _, rfl⟩)

theorem mkfs_name_ne_rbd (fsType : String) : ("rbd" == "mkfs." ++ fsType) = false := by
  rw [beq_eq_false_iff_ne]
  intro h
  have := congrArg String.data h
  simp at this

theorem mkfs_name_ne_file (fsType : String) : ("file" == "mkfs." ++ fsType) = false := by
  rw [beq_eq_false_iff_ne]
  intro h
  have := congrArg String.data h
  simp at this

theorem beforeMapped_kinds (fsType p name : String) (e : Event) (h : beforeMapped p name e) :
    isUnmap e = false ∧ isMkfs fsType e = false ∧ isMkfsExec e = false ∧
    (∀ q a o, e ≠ .exec q a ⟨o, none⟩ ∨ isFlatten e = true) ∧
    (∀ q d r, e ≠ .exec q ["-s", d] r ∧ e ≠ .exec q [d] r ∧ e ≠ .exec q ["unmap", d] r) := by
  rcases h with ⟨r, rfl⟩ | ⟨r, rfl⟩ | ⟨o, err, rfl⟩ | ⟨r, rfl⟩ <;>
    simp [isUnmap, isMkfs, isMkfsExec, isFlatten, mkfs_name_ne_rbd, mkfs_name_ne_file]

theorem afterMapped_kinds (fsType dev : String) (e : Event) (h : afterMapped fsType dev e) :
    isMap e = false ∧ isFlatten e = false ∧ isUnmap e = false := by
  rcases h with ⟨q, r, rfl⟩ | ⟨r, rfl⟩ | ⟨q, r, rfl⟩ <;> simp [isMap, isFlatten, isUnmap]

/-- Every call of `Format` either never maps a device (its interactions are lookups of
`rbd` and `file`, failed maps and flattens), or maps one and then runs the inspection
block and the deferred unmap on the trimmed output of the successful map. -/
theorem Format_shape (env : Env σ) (volumeData : Descriptor) (fsType : String) (s : σ) :
    (∃ p name, ∀ e ∈ (Format env volumeData fsType s).trace, beforeMapped p name e) ∨
    (∃ volume rbdPath filePath pre o s3 r,
      ToRBDVolume volumeData = .ok volume ∧
      (∀ e ∈ pre, beforeMapped rbdPath volume.Name e) ∧
      (Format env volumeData fsType s).err
        = (inspectAndMkfs env filePath volume.Name fsType (TrimSpace o) s3).1 ∧
      (Format env volumeData fsType s).trace
        = pre ++ [.exec rbdPath ["map", volume.Name] ⟨o, none⟩] ++
          (inspectAndMkfs env filePath volume.Name fsType (TrimSpace o) s3).2.1 ++
          [.exec rbdPath ["unmap", TrimSpace o] r]) := by
  cases hd : ToRBDVolume volumeData with
  | error err => exact Or.inl ⟨"", "", by simp [Format, hd]⟩
  | ok volume =>
    rcases h1 : env.LookPath "rbd" s with ⟨l1, s1⟩
    cases l1 with
    | none =>
      refine Or.inl ⟨"", "", ?_⟩
      intro e he
      simp [Format, hd, h1] at he
      exact Or.inl ⟨_, he⟩
    | some rbdPath =>
      rcases h2 : env.LookPath "file" s1 with ⟨l2, s2⟩
      cases l2 with
      | none =>
        refine Or.inl ⟨"", "", ?_⟩
        intro e he
        simp [Format, hd, h1, h2] at he
        rcases he with rfl | rfl
        · exact Or.inl ⟨_, rfl⟩
        · exact Or.inr (Or.inl ⟨_, rfl⟩)
      | some filePath =>
        rcases hm : mapVolume env rbdPath volume.Name s2 with ⟨res, tr, s3⟩
        cases res with
        | error g =>
          have hb := mapVolume_error env rbdPath volume.Name g s2 s3 tr hm
          refine Or.inl ⟨rbdPath, volume.Name, ?_⟩
          intro e he
          simp [Format, hd, h1, h2, hm] at he
          rcases he with rfl | rfl | he
          · exact Or.inl ⟨_, rfl⟩
          · exact Or.inr (Or.inl ⟨_, rfl⟩)
          · exact hb e he
        | ok o =>
          obtain ⟨pre, rfl, hpre⟩ := mapVolume_ok env rbdPath volume.Name o s2 s3 tr hm
          refine Or.inr ⟨volume, rbdPath, filePath,
            [.look "rbd" (some rbdPath), .look "file" (some filePath)] ++ pre, o, s3,
            (env.CombinedOutput rbdPath ["unmap", TrimSpace o]
              (inspectAndMkfs env filePath volume.Name fsType (TrimSpace o) s3).2.2).1,
            rfl, ?_, ?_, ?_⟩
          · intro e he
            simp at he
            rcases he with rfl | rfl | he
            · exact Or.inl ⟨_, rfl⟩
            · exact Or.inr (Or.inl ⟨_, rfl⟩)
            · exact hpre e he
          · simp [Format, hd, h1, h2, hm]
          · simp [Format, hd, h1, h2, hm, unmapRBD]

/-- A successful `rbd map` in the trace of `Format` is the one that mapped the device. -/
theorem Format_of_mapped (env : Env σ) (volumeData : Descriptor) (fsType : String) (s : σ)
    (p name out : String)
    (h : Event.exec p ["map", name] ⟨out, none⟩ ∈ (Format env volumeData fsType s).trace) :
    ∃ filePath pre s3 r,
      (∀ e ∈ pre, beforeMapped p name e) ∧
      (Format env volumeData fsType s).err
        = (inspectAndMkfs env filePath name fsType (TrimSpace out) s3).1 ∧
      (Format env volumeData fsType s).trace
        = pre ++ [.exec p ["map", name] ⟨out, none⟩] ++
          (inspectAndMkfs env filePath name fsType (TrimSpace out) s3).2.1 ++
          [.exec p ["unmap", TrimSpace out] r] := by
  rcases Format_shape env volumeData fsType s with ⟨q, nm, hall⟩ |
    ⟨volume, rbdPath, filePath, pre, o, s3, r, -, hpre, herr, htr⟩
  · rcases hall _ h with ⟨r, he⟩ | ⟨r, he⟩ | ⟨o, err, he⟩ | ⟨r, he⟩ <;> simp at he
  · have hbody := inspectAndMkfs_events env filePath volume.Name fsType (TrimSpace o) s3
    have ho : p = rbdPath ∧ name = volume.Name ∧ out = o := by
      rw [htr] at h
      simp only [List.mem_append, List.mem_cons, List.mem_singleton, List.not_mem_nil,
        or_false] at h
      rcases h with ((h | h) | h) | h
      · rcases hpre _ h with ⟨r, he⟩ | ⟨r, he⟩ | ⟨o, err, he⟩ | ⟨r, he⟩ <;> simp at he
      · simpa using h
      · rcases hbody _ h with ⟨q, r, he⟩ | ⟨r, he⟩ | ⟨q, r, he⟩ <;> simp at he
      · simp at h
    obtain ⟨rfl, rfl, rfl⟩ := ho
    exact ⟨filePath, pre, s3, r, hpre, herr, htr⟩

/-- A successful `file -s` in the trace of `Format` is the inspection of the mapped
device. -/
theorem Format_of_inspected (env : Env σ) (volumeData : Descriptor) (fsType : String)
    (s : σ) (q dev : String) (res : CmdResult)
    (h : Event.exec q ["-s", dev] res ∈ (Format env volumeData fsType s).trace) :
    ∃ p name out pre s3 r rest,
      dev = TrimSpace out ∧
      (∀ e ∈ pre, beforeMapped p name e) ∧
      (Format env volumeData fsType s).err
        = (inspectAndMkfs env q name fsType dev s3).1 ∧
      (inspectAndMkfs env q name fsType dev s3).2.1 = .exec q ["-s", dev] res :: rest ∧
      (Format env volumeData fsType s).trace
        = pre ++ [.exec p ["map", name] ⟨out, none⟩] ++
          (.exec q ["-s", dev] res :: rest) ++ [.exec p ["unmap", dev] r] := by
  rcases Format_shape env volumeData fsType s with ⟨q, nm, hall⟩ |
    ⟨volume, rbdPath, filePath, pre, o, s3, r, -, hpre, herr, htr⟩
  · rcases hall _ h with ⟨r, he⟩ | ⟨r, he⟩ | ⟨o, err, he⟩ | ⟨r, he⟩ <;> simp at he
  · obtain ⟨r0, rest, hb, hcases⟩ :=
      inspectAndMkfs_shape env filePath volume.Name fsType (TrimSpace o) s3
    have hrest : ∀ e ∈ rest, (∃ f r, e = Event.look f r) ∨ (∃ q r, e = .exec q [TrimSpace o] r) := by
      intro e he
      rcases hcases with ⟨_, _, rfl, _⟩ | ⟨_, _, rfl, _⟩ | ⟨_, _, rfl, _⟩ |
        ⟨_, _, mkfsPath, m, rfl, _⟩
      · simp at he
      · simp at he
      · simp at he
        exact Or.inl ⟨_, _, he⟩
      · simp at he
        rcases he with rfl | rfl
        · exact Or.inl ⟨_, _, rfl⟩
        · exact Or.inr ⟨_, _, rfl⟩
    have ho : q = filePath ∧ dev = TrimSpace o ∧ res = r0 := by
      rw [htr, hb] at h
      simp only [List.mem_append, List.mem_cons, List.mem_singleton, List.not_mem_nil,
        or_false] at h
      rcases h with ((h | h) | h | h) | h
      · rcases hpre _ h with ⟨r, he⟩ | ⟨r, he⟩ | ⟨o, err, he⟩ | ⟨r, he⟩ <;> simp at he
      · simp at h
      · simpa using h
      · rcases hrest _ h with ⟨f, r, he⟩ | ⟨q, r, he⟩ <;> simp at he
      · simp at h
    obtain ⟨rfl, rfl, rfl⟩ := ho
    refine ⟨rbdPath, volume.Name, o, pre, s3, r, rest, rfl, hpre, herr, hb, ?_⟩
    rw [htr, hb]

/-! ### Format: the claims -/

/-- C1: if the trace of a `Format` call contains a successful `rbd map` with output `out`,
then the trace ends with `rbd unmap` on the trimmed `out`, run with the same `rbd` path,
and no interaction before it is an `rbd unmap`: the device is unmapped exactly once, after
everything else, whatever `Format` returns. -/
theorem Format_unmaps_once (env : Env σ) (volumeData : Descriptor) (fsType : String) (s : σ)
    (p name out : String)
    (h : Event.exec p ["map", name] ⟨out, none⟩ ∈ (Format env volumeData fsType s).trace) :
    ∃ pre res, (Format env volumeData fsType s).trace
        = pre ++ [Event.exec p ["unmap", TrimSpace out] res] ∧
      ∀ e ∈ pre, isUnmap e = false := by
  obtain ⟨filePath, pre, s3, r, hpre, -, htr⟩ :=
    Format_of_mapped env volumeData fsType s p name out h
  have hbody := inspectAndMkfs_events env filePath name fsType (TrimSpace out) s3
  refine ⟨_, r, htr, ?_⟩
  intro e he
  simp only [List.mem_append, List.mem_cons, List.mem_singleton, List.not_mem_nil,
    or_false] at he
  rcases he with (he | rfl) | he
  · exact (beforeMapped_kinds fsType p name e (hpre e he)).1
  · simp [isUnmap]
  · exact (afterMapped_kinds fsType _ e (hbody e he)).2.2

/-- C1 on a host where `mkfs.ext4` fails after a successful map. -/
theorem Format_unmaps_once_witness :
    Event.exec "/usr/bin/rbd" ["map", "vol1"] ⟨"/dev/rbd0\n", none⟩
      ∈ (Format hostMkfsFails vol1 "ext4" {}).trace ∧
    ∃ pre res, (Format hostMkfsFails vol1 "ext4" {}).trace
        = pre ++ [Event.exec "/usr/bin/rbd" ["unmap", TrimSpace "/dev/rbd0\n"] res] ∧
      ∀ e ∈ pre, isUnmap e = false :=
  ⟨by decide, Format_unmaps_once hostMkfsFails vol1 "ext4" {} "/usr/bin/rbd" "vol1"
    "/dev/rbd0\n" (by decide)⟩

/-- When the text of the first map error does not contain `status 22`, `Format` fails at
once with the map-failed error, after the two lookups and the one map. -/
theorem Format_map_fails_other (env : Env σ) (volumeData : Descriptor) (fsType : String)
    (s s1 s2 s3 : σ) (volume : RBDVolume) (rbdPath filePath o1 e1 : String)
    (hdec : ToRBDVolume volumeData = .ok volume)
    (hrbd : env.LookPath "rbd" s = (some rbdPath, s1))
    (hfile : env.LookPath "file" s1 = (some filePath, s2))
    (hmap : env.CombinedOutput rbdPath ["map", volume.Name] s2 = (⟨o1, some e1⟩, s3))
    (h22 : Contains e1 "status 22" = false) :
    (Format env volumeData fsType s).err
      = some (.errorf ("rbd map " ++ volume.Name ++ " failed: " ++ e1)) ∧
    (Format env volumeData fsType s).trace
      = [.look "rbd" (some rbdPath), .look "file" (some filePath),
         .exec rbdPath ["map", volume.Name] ⟨o1, some e1⟩] := by
  simp [Format, mapVolume, hdec, hrbd, hfile, hmap, h22]

/-- C2, the code at the failing input: `rbd map vol1` exits with status 220, which is not
status 22, yet the error text "exit status 220" contains "status 22", so `Format` runs
`rbd flatten vol1`, maps again, and returns success instead of the map-failed error. -/
theorem Format_status_220_flattens :
    exitStatus 220 ≠ exitStatus 22 ∧
    Contains (exitStatus 220) "status 22" = true ∧
    (Format hostStatus220 vol1 "ext4" {}).err = none ∧
    (Format hostStatus220 vol1 "ext4" {}).trace
      = [.look "rbd" (some "/usr/bin/rbd"), .look "file" (some "/usr/bin/file"),
         .exec "/usr/bin/rbd" ["map", "vol1"] ⟨"", some "exit status 220"⟩,
         .exec "/usr/bin/rbd" ["flatten", "vol1"] ⟨"", none⟩,
         .exec "/usr/bin/rbd" ["map", "vol1"] ⟨"/dev/rbd1\n", none⟩,
         .exec "/usr/bin/file" ["-s", "/dev/rbd1"] ⟨"/dev/rbd0: data", none⟩,
         .look "mkfs.ext4" (some "/usr/bin/mkfs.ext4"),
         .exec "/usr/bin/mkfs.ext4" ["/dev/rbd1"] ⟨"", none⟩,
         .exec "/usr/bin/rbd" ["unmap", "/dev/rbd1"] ⟨"", none⟩] := by
  decide

/-- C3: when the descriptor decodes, both tools resolve and the first `rbd map <name>`
fails with an error whose text contains `status 22`, the trace of `Format` has exactly one
`rbd flatten <name>`; if the flatten succeeds it has exactly two `rbd map <name>`, the
failed one and one more; and if that second map succeeds with output `P`, the error
returned is the one of the inspection block run on the trimmed `P`, the trace is the five
interactions so far followed by that block and the unmap of the trimmed `P`, and error,
final state and the rest of the trace are those of a call, started in any state `t`, whose
first map returned `P` and left the environment in the same state. -/
theorem Format_flatten_retry (env : Env σ) (volumeData : Descriptor) (fsType : String)
    (s s1 s2 s3 : σ) (volume : RBDVolume) (rbdPath filePath o1 e1 : String)
    (hdec : ToRBDVolume volumeData = .ok volume)
    (hrbd : env.LookPath "rbd" s = (some rbdPath, s1))
    (hfile : env.LookPath "file" s1 = (some filePath, s2))
    (hmap : env.CombinedOutput rbdPath ["map", volume.Name] s2 = (⟨o1, some e1⟩, s3))
    (h22 : Contains e1 "status 22" = true) :
    (Format env volumeData fsType s).trace.filter isFlatten
      = [.exec rbdPath ["flatten", volume.Name]
          (env.CombinedOutput rbdPath ["flatten", volume.Name] s3).1] ∧
    ∀ (o2 : String) (s4 : σ),
      env.CombinedOutput rbdPath ["flatten", volume.Name] s3 = (⟨o2, none⟩, s4) →
      (Format env volumeData fsType s).trace.filter isMap
        = [.exec rbdPath ["map", volume.Name] ⟨o1, some e1⟩,
           .exec rbdPath ["map", volume.Name]
            (env.CombinedOutput rbdPath ["map", volume.Name] s4).1] ∧
      ∀ (P : String) (s5 : σ),
        env.CombinedOutput rbdPath ["map", volume.Name] s4 = (⟨P, none⟩, s5) →
        (Format env volumeData fsType s).err
          = (inspectAndMkfs env filePath volume.Name fsType (TrimSpace P) s5).1 ∧
        (Format env volumeData fsType s).trace
          = [.look "rbd" (some rbdPath), .look "file" (some filePath),
             .exec rbdPath ["map", volume.Name] ⟨o1, some e1⟩,
             .exec rbdPath ["flatten", volume.Name] ⟨o2, none⟩,
             .exec rbdPath ["map", volume.Name] ⟨P, none⟩] ++
            (inspectAndMkfs env filePath volume.Name fsType (TrimSpace P) s5).2.1 ++
            [.exec rbdPath ["unmap", TrimSpace P]
              (env.CombinedOutput rbdPath ["unmap", TrimSpace P]
                (inspectAndMkfs env filePath volume.Name fsType (TrimSpace P) s5).2.2).1] ∧
        ∀ (t t1 t2 : σ),
          env.LookPath "rbd" t = (some rbdPath, t1) →
          env.LookPath "file" t1 = (some filePath, t2) →
          env.CombinedOutput rbdPath ["map", volume.Name] t2 = (⟨P, none⟩, s5) →
          (Format env volumeData fsType s).err = (Format env volumeData fsType t).err ∧
          (Format env volumeData fsType s).state = (Format env volumeData fsType t).state ∧
          ∃ rest,
            (Format env volumeData fsType s).trace
              = [.look "rbd" (some rbdPath), .look "file" (some filePath),
                 .exec rbdPath ["map", volume.Name] ⟨o1, some e1⟩,
                 .exec rbdPath ["flatten", volume.Name] ⟨o2, none⟩,
                 .exec rbdPath ["map", volume.Name] ⟨P, none⟩] ++ rest ∧
            (Format env volumeData fsType t).trace
              = [.look "rbd" (some rbdPath), .look "file" (some filePath),
                 .exec rbdPath ["map", volume.Name] ⟨P, none⟩] ++ rest := by
  rcases hfl : env.CombinedOutput rbdPath ["flatten", volume.Name] s3 with ⟨⟨o2, e2⟩, s4⟩
  cases e2 with
  | some ef =>
    refine ⟨?_, ?_⟩
    · simp [Format, mapVolume, hdec, hrbd, hfile, hmap, h22, hfl, isFlatten]
    · intro o2' s4' h
      simp at h
  | none =>
    rcases hm2 : env.CombinedOutput rbdPath ["map", volume.Name] s4 with ⟨⟨o3, e3⟩, s5⟩
    cases e3 with
    | some em =>
      refine ⟨?_, ?_⟩
      · simp [Format, mapVolume, hdec, hrbd, hfile, hmap, h22, hfl, hm2, isFlatten]
      · intro o2' s4' h
        simp at h
        obtain ⟨rfl, rfl⟩ := h
        refine ⟨?_, ?_⟩
        · simp [Format, mapVolume, hdec, hrbd, hfile, hmap, h22, hfl, hm2, isMap]
        · intro P s5' h
          simp [hm2] at h
    | none =>
      have hk : ∀ e ∈ (inspectAndMkfs env filePath volume.Name fsType (TrimSpace o3) s5).2.1,
          isMap e = false ∧ isFlatten e = false ∧ isUnmap e = false := fun e he =>
        afterMapped_kinds fsType _ e
          (inspectAndMkfs_events env filePath volume.Name fsType (TrimSpace o3) s5 e he)
      have hF : Format env volumeData fsType s =
          ⟨(inspectAndMkfs env filePath volume.Name fsType (TrimSpace o3) s5).1,
           [.look "rbd" (some rbdPath), .look "file" (some filePath),
             .exec rbdPath ["map", volume.Name] ⟨o1, some e1⟩,
             .exec rbdPath ["flatten", volume.Name] ⟨o2, none⟩,
             .exec rbdPath ["map", volume.Name] ⟨o3, none⟩] ++
            (inspectAndMkfs env filePath volume.Name fsType (TrimSpace o3) s5).2.1 ++
            [.exec rbdPath ["unmap", TrimSpace o3]
              (env.CombinedOutput rbdPath ["unmap", TrimSpace o3]
                (inspectAndMkfs env filePath volume.Name fsType (TrimSpace o3) s5).2.2).1],
           (env.CombinedOutput rbdPath ["unmap", TrimSpace o3]
                (inspectAndMkfs env filePath volume.Name fsType (TrimSpace o3) s5).2.2).2⟩ := by
        simp [Format, mapVolume, unmapRBD, hdec, hrbd, hfile, hmap, h22, hfl, hm2]
      have hnf : (inspectAndMkfs env filePath volume.Name fsType (TrimSpace o3) s5).2.1.filter
          isFlatten = [] := List.filter_eq_nil_iff.mpr (fun e he => by simp [(hk e he).2.1])
      have hnm : (inspectAndMkfs env filePath volume.Name fsType (TrimSpace o3) s5).2.1.filter
          isMap = [] := List.filter_eq_nil_iff.mpr (fun e he => by simp [(hk e he).1])
      refine ⟨?_, ?_⟩
      · rw [hF]
        simp [List.filter_append, hnf, isFlatten, List.filter_cons]
      · intro o2' s4' h
        simp at h
        obtain ⟨rfl, rfl⟩ := h
        refine ⟨?_, ?_⟩
        · rw [hF]
          simp [List.filter_append, hnm, isMap, List.filter_cons, hm2]
        · intro P s5' h
          simp [hm2] at h
          obtain ⟨rfl, rfl⟩ := h
          refine ⟨by rw [hF], by rw [hF], ?_⟩
          intro t t1 t2 ht1 ht2 ht3
          have hG : Format env volumeData fsType t =
              ⟨(inspectAndMkfs env filePath volume.Name fsType (TrimSpace o3) s5).1,
               [.look "rbd" (some rbdPath), .look "file" (some filePath),
                 .exec rbdPath ["map", volume.Name] ⟨o3, none⟩] ++
                (inspectAndMkfs env filePath volume.Name fsType (TrimSpace o3) s5).2.1 ++
                [.exec rbdPath ["unmap", TrimSpace o3]
                  (env.CombinedOutput rbdPath ["unmap", TrimSpace o3]
                    (inspectAndMkfs env filePath volume.Name fsType (TrimSpace o3) s5).2.2).1],
               (env.CombinedOutput rbdPath ["unmap", TrimSpace o3]
                    (inspectAndMkfs env filePath volume.Name fsType (TrimSpace o3) s5).2.2).2⟩ := by
            simp [Format, mapVolume, unmapRBD, hdec, ht1, ht2, ht3]
          rw [hF, hG]
          refine ⟨rfl, rfl, _, ?_, rfl⟩
          simp

/-- C3 on a host whose image must be flattened: the first map exits with status 22, the
flatten succeeds, the second map prints `/dev/rbd1`; compared with a call on the same host
started after the image was flattened. -/
theorem Format_flatten_retry_witness :
    (Format hostManyLayers vol1 "ext4" {}).trace.filter isFlatten
      = [.exec "/usr/bin/rbd" ["flatten", "vol1"] ⟨"", none⟩] ∧
    (Format hostManyLayers vol1 "ext4" {}).trace.filter isMap
      = [.exec "/usr/bin/rbd" ["map", "vol1"]
          ⟨"rbd: map failed: (22) Invalid argument\n", some "exit status 22"⟩,
         .exec "/usr/bin/rbd" ["map", "vol1"] ⟨"/dev/rbd1\n", none⟩] ∧
    (Format hostManyLayers vol1 "ext4" {}).err
      = (Format hostManyLayers vol1 "ext4" { flattened := true }).err ∧
    (Format hostManyLayers vol1 "ext4" {}).state
      = (Format hostManyLayers vol1 "ext4" { flattened := true }).state ∧
    ∃ rest,
      (Format hostManyLayers vol1 "ext4" {}).trace
        = [.look "rbd" (some "/usr/bin/rbd"), .look "file" (some "/usr/bin/file"),
           .exec "/usr/bin/rbd" ["map", "vol1"]
            ⟨"rbd: map failed: (22) Invalid argument\n", some "exit status 22"⟩,
           .exec "/usr/bin/rbd" ["flatten", "vol1"] ⟨"", none⟩,
           .exec "/usr/bin/rbd" ["map", "vol1"] ⟨"/dev/rbd1\n", none⟩] ++ rest ∧
      (Format hostManyLayers vol1 "ext4" { flattened := true }).trace
        = [.look "rbd" (some "/usr/bin/rbd"), .look "file" (some "/usr/bin/file"),
           .exec "/usr/bin/rbd" ["map", "vol1"] ⟨"/dev/rbd1\n", none⟩] ++ rest :=
  have h := Format_flatten_retry hostManyLayers vol1 "ext4" {} {} {} {} { Name := "vol1" }
    "/usr/bin/rbd" "/usr/bin/file" "rbd: map failed: (22) Invalid argument\n"
    "exit status 22" rfl rfl rfl rfl (by decide)
  have h2 := h.2 "" { flattened := true } rfl
  have h3 := (h2.2 "/dev/rbd1\n" { flattened := true } rfl).2.2
    { flattened := true } { flattened := true } { flattened := true } rfl rfl rfl
  ⟨h.1, h2.1, h3.1, h3.2.1, h3.2.2⟩

/-- C4: when the descriptor decodes, both tools resolve, the first `rbd map` fails with an
error whose text contains `status 22` and `rbd flatten` fails, `Format` returns the
map-failed error built from the error of the first map (not from the flatten error), and
the interactions of the call are exactly the two lookups, the map and the flatten: no second
map, no `file`, no `mkfs`, no `rbd unmap`. -/
theorem Format_flatten_fails (env : Env σ) (volumeData : Descriptor) (fsType : String)
    (s s1 s2 s3 s4 : σ) (volume : RBDVolume) (rbdPath filePath o1 e1 o2 e2 : String)
    (hdec : ToRBDVolume volumeData = .ok volume)
    (hrbd : env.LookPath "rbd" s = (some rbdPath, s1))
    (hfile : env.LookPath "file" s1 = (some filePath, s2))
    (hmap : env.CombinedOutput rbdPath ["map", volume.Name] s2 = (⟨o1, some e1⟩, s3))
    (h22 : Contains e1 "status 22" = true)
    (hflat : env.CombinedOutput rbdPath ["flatten", volume.Name] s3 = (⟨o2, some e2⟩, s4)) :
    (Format env volumeData fsType s).err
      = some (.errorf ("rbd map " ++ volume.Name ++ " failed: " ++ e1)) ∧
    (Format env volumeData fsType s).trace
      = [.look "rbd" (some rbdPath), .look "file" (some filePath),
         .exec rbdPath ["map", volume.Name] ⟨o1, some e1⟩,
         .exec rbdPath ["flatten", volume.Name] ⟨o2, some e2⟩] ∧
    (Format env volumeData fsType s).state = s4 := by
  simp [Format, mapVolume, hdec, hrbd, hfile, hmap, h22, hflat]

/-- C4 on a host where `rbd map` exits with status 22 and `rbd flatten` exits with
status 1. -/
theorem Format_flatten_fails_witness :
    (Format hostFlattenFails vol1 "ext4" {}).err
      = some (.errorf ("rbd map " ++ "vol1" ++ " failed: " ++ "exit status 22")) ∧
    (Format hostFlattenFails vol1 "ext4" {}).trace
      = [.look "rbd" (some "/usr/bin/rbd"), .look "file" (some "/usr/bin/file"),
         .exec "/usr/bin/rbd" ["map", "vol1"] ⟨"", some "exit status 22"⟩,
         .exec "/usr/bin/rbd" ["flatten", "vol1"] ⟨"", some "exit status 1"⟩] ∧
    (Format hostFlattenFails vol1 "ext4" {}).state = {} :=
  Format_flatten_fails hostFlattenFails vol1 "ext4" {} {} {} {} {} { Name := "vol1" }
    "/usr/bin/rbd" "/usr/bin/file" "" "exit status 22" "" "exit status 1"
    rfl rfl rfl rfl (by decide) rfl

/-- C5: if the trace of a `Format` call contains a successful `file -s dev` with output
`info`, then `dev` is the trimmed output of the successful map, and
(a) when `info` contains `<fsType> filesystem`, `Format` returns success and the trace has
no lookup and no invocation of `mkfs.<fsType>`;
(b) when it does not, the trace has exactly one lookup of `mkfs.<fsType>`, followed, when
the lookup found a path, by exactly one invocation of that path with `dev` as its only
argument, and nothing else of `mkfs`; a failed lookup gives the not-found error, and the
result of the invocation decides between success and the format-failed error. -/
theorem Format_mkfs_iff (env : Env σ) (volumeData : Descriptor) (fsType : String) (s : σ)
    (q dev info : String)
    (h : Event.exec q ["-s", dev] ⟨info, none⟩ ∈ (Format env volumeData fsType s).trace) :
    (∃ p name out, Event.exec p ["map", name] ⟨out, none⟩
        ∈ (Format env volumeData fsType s).trace ∧ dev = TrimSpace out) ∧
    (Contains info (fsType ++ " filesystem") = true →
      (Format env volumeData fsType s).err = none ∧
      (Format env volumeData fsType s).trace.filter (isMkfs fsType) = []) ∧
    (Contains info (fsType ++ " filesystem") = false →
      ∃ found rest,
        (Format env volumeData fsType s).trace.filter (isMkfs fsType)
          = .look ("mkfs." ++ fsType) found :: rest ∧
        (found = none → rest = [] ∧
          (Format env volumeData fsType s).err
            = some (.errorf ("mkfs." ++ fsType ++ " not found"))) ∧
        (∀ mkfsPath, found = some mkfsPath →
          ∃ m, rest = [.exec mkfsPath [dev] m] ∧
            (Format env volumeData fsType s).err
              = m.err.map (fun err => .errorf ("rbd format failed: " ++ err)))) := by
  obtain ⟨p, name, out, pre, s3, r, rest, hdev, hpre, herr, hb, htr⟩ :=
    Format_of_inspected env volumeData fsType s q dev ⟨info, none⟩ h
  have hprek : pre.filter (isMkfs fsType) = [] :=
    List.filter_eq_nil_iff.mpr (fun e he => by
      simp [(beforeMapped_kinds fsType p name e (hpre e he)).2.1])
  obtain ⟨r0, rest0, hb0, hcases⟩ := inspectAndMkfs_shape env q name fsType dev s3
  rw [hb] at hb0
  simp only [List.cons.injEq, Event.exec.injEq, true_and] at hb0
  obtain ⟨rfl, rfl⟩ := hb0
  refine ⟨⟨p, name, out, by rw [htr]; simp, hdev⟩, ?_, ?_⟩
  · intro hc
    rcases hcases with ⟨err, he, _⟩ | ⟨_, _, rfl, hres⟩ | ⟨_, hn, _⟩ | ⟨_, hn, _⟩
    · simp at he
    · refine ⟨by rw [herr, hres], ?_⟩
      rw [htr]
      simp [List.filter_append, hprek, isMkfs, List.filter_cons]
    · simp [hc] at hn
    · simp [hc] at hn
  · intro hc
    rcases hcases with ⟨err, he, _⟩ | ⟨_, hy, _⟩ | ⟨_, _, rfl, hres⟩ |
      ⟨_, _, mkfsPath, m, rfl, hres⟩
    · simp at he
    · simp [hc] at hy
    · refine ⟨none, [], ?_, fun _ => ⟨rfl, by rw [herr, hres]⟩, fun _ hx => by simp at hx⟩
      rw [htr]
      simp [List.filter_append, hprek, isMkfs, List.filter_cons]
    · refine ⟨some mkfsPath, [.exec mkfsPath [dev] m], ?_, fun hx => by simp at hx, ?_⟩
      · rw [htr]
        simp [List.filter_append, hprek, isMkfs, List.filter_cons]
      · intro mp hx
        simp at hx
        subst hx
        exact ⟨m, rfl, by rw [herr, hres]⟩

/-- C5 on two hosts: `file -s` answering
`/dev/rbd0: ext4 filesystem data` (no `mkfs`), and answering `/dev/rbd0: data`
(`mkfs.ext4 /dev/rbd0` once). -/
theorem Format_mkfs_iff_witness :
    ((Format hostExt4 vol1 "ext4" {}).err = none ∧
      (Format hostExt4 vol1 "ext4" {}).trace.filter (isMkfs "ext4") = []) ∧
    (∃ found rest,
        (Format hostBlank vol1 "ext4" {}).trace.filter (isMkfs "ext4")
          = .look ("mkfs." ++ "ext4") found :: rest ∧
        (found = none → rest = [] ∧
          (Format hostBlank vol1 "ext4" {}).err
            = some (.errorf ("mkfs." ++ "ext4" ++ " not found"))) ∧
        (∀ mkfsPath, found = some mkfsPath →
          ∃ m, rest = [.exec mkfsPath ["/dev/rbd0"] m] ∧
            (Format hostBlank vol1 "ext4" {}).err
              = m.err.map (fun err => .errorf ("rbd format failed: " ++ err)))) ∧
    (Format hostBlank vol1 "ext4" {}).trace.filter (isMkfs "ext4")
      = [.look "mkfs.ext4" (some "/usr/bin/mkfs.ext4"),
         .exec "/usr/bin/mkfs.ext4" ["/dev/rbd0"] ⟨"", none⟩] :=
  ⟨(Format_mkfs_iff hostExt4 vol1 "ext4" {} "/usr/bin/file" "/dev/rbd0"
      "/dev/rbd0: ext4 filesystem data" (by decide)).2.1 (by decide),
   (Format_mkfs_iff hostBlank vol1 "ext4" {} "/usr/bin/file" "/dev/rbd0"
      "/dev/rbd0: data" (by decide)).2.2 (by decide),
   by decide⟩

/-- C6: when the descriptor decodes and `rbd` cannot be resolved, `Format` fails with
"rbd command not found"; when `rbd` resolves and `file` cannot be resolved, it fails with
"file command not found"; in both cases no command at all has been executed. -/
theorem Format_tool_not_found (env : Env σ) (volumeData : Descriptor) (fsType : String)
    (s : σ) (volume : RBDVolume) (hdec : ToRBDVolume volumeData = .ok volume) :
    ((env.LookPath "rbd" s).1 = none →
        (Format env volumeData fsType s).err = some (.errorf "rbd command not found") ∧
        commands (Format env volumeData fsType s).trace = []) ∧
    ((env.LookPath "rbd" s).1 ≠ none →
      (env.LookPath "file" (env.LookPath "rbd" s).2).1 = none →
        (Format env volumeData fsType s).err = some (.errorf "file command not found") ∧
        commands (Format env volumeData fsType s).trace = []) := by
  constructor
  · intro h
    simp [Format, hdec, h, commands]
  · intro h1 h2
    obtain ⟨p, hp⟩ := Option.ne_none_iff_exists'.mp h1
    simp [Format, hdec, hp, h2, commands]

/-- C6 on a host without `rbd` and `file`, and on a host without `file` only. -/
theorem Format_tool_not_found_witness :
    ((Format hostNoTools vol1 "ext4" {}).err = some (.errorf "rbd command not found") ∧
      commands (Format hostNoTools vol1 "ext4" {}).trace = []) ∧
    ((Format hostNoFile vol1 "ext4" {}).err = some (.errorf "file command not found") ∧
      commands (Format hostNoFile vol1 "ext4" {}).trace = []) :=
  ⟨(Format_tool_not_found hostNoTools vol1 "ext4" {} { Name := "vol1" } rfl).1 rfl,
   (Format_tool_not_found hostNoFile vol1 "ext4" {} { Name := "vol1" } rfl).2
      (by decide) rfl⟩

/-- Within one call, `mkfs` is invoked at most once, and exactly once when it is invoked
at all; when every successful `file -s` of the call reports `<fsType> filesystem`, the call
neither looks up nor invokes `mkfs`. -/
theorem Format_mkfs_count (env : Env σ) (volumeData : Descriptor) (fsType : String)
    (s : σ) :
    ((∃ e ∈ (Format env volumeData fsType s).trace, isMkfsExec e = true) →
      ((Format env volumeData fsType s).trace.filter isMkfsExec).length = 1) ∧
    ((∀ q d info, Event.exec q ["-s", d] ⟨info, none⟩
          ∈ (Format env volumeData fsType s).trace →
        Contains info (fsType ++ " filesystem") = true) →
      (Format env volumeData fsType s).trace.filter (isMkfs fsType) = [] ∧
      (Format env volumeData fsType s).trace.filter isMkfsExec = []) := by
  rcases Format_shape env volumeData fsType s with ⟨p, nm, hall⟩ |
    ⟨volume, rbdPath, filePath, pre, o, s3, r, -, hpre, herr, htr⟩
  · have hk := fun e he => beforeMapped_kinds fsType p nm e (hall e he)
    refine ⟨?_, fun _ => ⟨?_, ?_⟩⟩
    · rintro ⟨e, he, hm⟩
      simp [(hk e he).2.2.1] at hm
    · exact List.filter_eq_nil_iff.mpr (fun e he => by simp [(hk e he).2.1])
    · exact List.filter_eq_nil_iff.mpr (fun e he => by simp [(hk e he).2.2.1])
  · have hk := fun e he => beforeMapped_kinds fsType rbdPath volume.Name e (hpre e he)
    have hp1 : pre.filter (isMkfs fsType) = [] :=
      List.filter_eq_nil_iff.mpr (fun e he => by simp [(hk e he).2.1])
    have hp2 : pre.filter isMkfsExec = [] :=
      List.filter_eq_nil_iff.mpr (fun e he => by simp [(hk e he).2.2.1])
    obtain ⟨r0, rest, hb, hcases⟩ :=
      inspectAndMkfs_shape env filePath volume.Name fsType (TrimSpace o) s3
    rw [hb] at htr
    rcases hcases with ⟨err, he, rfl, _⟩ | ⟨_, _, rfl, _⟩ | ⟨hr, hn, rfl, _⟩ |
      ⟨hr, hn, mkfsPath, m, rfl, _⟩
    · refine ⟨?_, fun _ => ⟨?_, ?_⟩⟩
      · rintro ⟨e, he, hm⟩
        rw [htr] at he
        simp only [List.mem_append, List.mem_cons, List.mem_singleton, List.not_mem_nil,
          or_false] at he
        rcases he with ((he | rfl) | rfl) | rfl
        · simp [(hk e he).2.2.1] at hm
        · simp [isMkfsExec] at hm
        · simp [isMkfsExec] at hm
        · simp [isMkfsExec] at hm
      · rw [htr]
        simp [List.filter_append, hp1, isMkfs, List.filter_cons]
      · rw [htr]
        simp [List.filter_append, hp2, isMkfsExec, List.filter_cons]
    · refine ⟨?_, fun _ => ⟨?_, ?_⟩⟩
      · rintro ⟨e, he, hm⟩
        rw [htr] at he
        simp only [List.mem_append, List.mem_cons, List.mem_singleton, List.not_mem_nil,
          or_false] at he
        rcases he with ((he | rfl) | rfl) | rfl
        · simp [(hk e he).2.2.1] at hm
        · simp [isMkfsExec] at hm
        · simp [isMkfsExec] at hm
        · simp [isMkfsExec] at hm
      · rw [htr]
        simp [List.filter_append, hp1, isMkfs, List.filter_cons]
      · rw [htr]
        simp [List.filter_append, hp2, isMkfsExec, List.filter_cons]
    · refine ⟨?_, fun hall => ?_⟩
      · rintro ⟨e, he, hm⟩
        rw [htr] at he
        simp only [List.mem_append, List.mem_cons, List.mem_singleton, List.not_mem_nil,
          or_false] at he
        rcases he with ((he | rfl) | rfl | rfl) | rfl
        · simp [(hk e he).2.2.1] at hm
        · simp [isMkfsExec] at hm
        · simp [isMkfsExec] at hm
        · simp [isMkfsExec] at hm
        · simp [isMkfsExec] at hm
      · have := hall filePath (TrimSpace o) r0.out (by
          rw [htr]
          have : r0 = ⟨r0.out, none⟩ := by cases r0; simp_all
          rw [← this]
          simp)
        simp [hn] at this
    · refine ⟨fun _ => ?_, fun hall => ?_⟩
      · rw [htr]
        simp [List.filter_append, hp2, isMkfsExec, List.filter_cons]
      · have := hall filePath (TrimSpace o) r0.out (by
          rw [htr]
          have : r0 = ⟨r0.out, none⟩ := by cases r0; simp_all
          rw [← this]
          simp)
        simp [hn] at this

/-- C7, counterexample: on a host with the usual `file` and `mkfs.xfs`, a first
`Format(vol1, "xfs")` creates the filesystem and returns success; `file -s` then reports
`SGI XFS filesystem data`, which does not contain `xfs filesystem`, so the second call
looks up and invokes `mkfs.xfs` again: two invocations across the two calls. -/
theorem Format_twice_mkfs_twice :
    (Format hostXfs vol1 "xfs" {}).err = none ∧
    (Format hostXfs vol1 "xfs" {}).trace.filter isMkfsExec
      = [.exec "/usr/bin/mkfs.xfs" ["/dev/rbd0"] ⟨"", none⟩] ∧
    (Format hostXfs vol1 "xfs" (Format hostXfs vol1 "xfs" {}).state).trace.filter isMkfsExec
      = [.exec "/usr/bin/mkfs.xfs" ["/dev/rbd0"] ⟨"", none⟩] ∧
    ¬ (((Format hostXfs vol1 "xfs" {}).trace ++
        (Format hostXfs vol1 "xfs" (Format hostXfs vol1 "xfs" {}).state).trace).filter
          isMkfsExec).length ≤ 1 := by
  decide

/-- C7, amended: if a first `Format` call invoked `mkfs` and returned success, and in the
second call, made on the state the first one left, every successful `file -s` reports
`<fsType> filesystem`, then the second call neither looks up nor invokes `mkfs.<fsType>`,
and `mkfs` is invoked exactly once across the two calls. -/
theorem Format_twice_mkfs_once (env : Env σ) (volumeData : Descriptor) (fsType : String)
    (s : σ)
    (_hok : (Format env volumeData fsType s).err = none)
    (hmk : ∃ e ∈ (Format env volumeData fsType s).trace, isMkfsExec e = true)
    (hfile : ∀ q d info, Event.exec q ["-s", d] ⟨info, none⟩
        ∈ (Format env volumeData fsType (Format env volumeData fsType s).state).trace →
      Contains info (fsType ++ " filesystem") = true) :
    (Format env volumeData fsType (Format env volumeData fsType s).state).trace.filter
        (isMkfs fsType) = [] ∧
    (((Format env volumeData fsType s).trace ++
      (Format env volumeData fsType (Format env volumeData fsType s).state).trace).filter
        isMkfsExec).length = 1 := by
  have h1 := (Format_mkfs_count env volumeData fsType s).1 hmk
  have h2 := (Format_mkfs_count env volumeData fsType
    (Format env volumeData fsType s).state).2 hfile
  refine ⟨h2.1, ?_⟩
  rw [List.filter_append, List.length_append, h1, h2.2]
  rfl

/-- C7 amended, on a host whose `file -s` reports `ext4 filesystem data` after
`mkfs.ext4`. -/
theorem Format_twice_mkfs_once_witness :
    (Format hostBlank vol1 "ext4" (Format hostBlank vol1 "ext4" {}).state).trace.filter
        (isMkfs "ext4") = [] ∧
    (((Format hostBlank vol1 "ext4" {}).trace ++
      (Format hostBlank vol1 "ext4" (Format hostBlank vol1 "ext4" {}).state).trace).filter
        isMkfsExec).length = 1 :=
  Format_twice_mkfs_once hostBlank vol1 "ext4" {} (by decide) (by decide) (by
    intro q d info h
    have hs : (Format hostBlank vol1 "ext4" (Format hostBlank vol1 "ext4" {}).state).trace
        = [.look "rbd" (some "/usr/bin/rbd"), .look "file" (some "/usr/bin/file"),
           .exec "/usr/bin/rbd" ["map", "vol1"] ⟨"/dev/rbd0\n", none⟩,
           .exec "/usr/bin/file" ["-s", "/dev/rbd0"]
             ⟨"/dev/rbd0: Linux rev 1.0 ext4 filesystem data", none⟩,
           .exec "/usr/bin/rbd" ["unmap", "/dev/rbd0"] ⟨"", none⟩] := by decide
    rw [hs] at h
    simp at h
    obtain ⟨-, -, rfl⟩ := h
    decide)

/-- C10, counterexample: `rbd map` prints a warning line and then the device line; the
device path `Format` passes to `file -s`, `mkfs.ext4` and `rbd unmap` is the whole
trimmed output, two lines, not its last line `/dev/rbd0`. -/
theorem Format_device_not_last_line :
    (Format hostWarning vol1 "ext4" {}).trace
      = [.look "rbd" (some "/usr/bin/rbd"), .look "file" (some "/usr/bin/file"),
         .exec "/usr/bin/rbd" ["map", "vol1"]
           ⟨"rbd: warning: image already mapped\n/dev/rbd0\n", none⟩,
         .exec "/usr/bin/file" ["-s", "rbd: warning: image already mapped\n/dev/rbd0"]
           ⟨"/dev/rbd0: data", none⟩,
         .look "mkfs.ext4" (some "/usr/bin/mkfs.ext4"),
         .exec "/usr/bin/mkfs.ext4" ["rbd: warning: image already mapped\n/dev/rbd0"]
           ⟨"", none⟩,
         .exec "/usr/bin/rbd" ["unmap", "rbd: warning: image already mapped\n/dev/rbd0"]
           ⟨"", none⟩] ∧
    lastLineTrimmed "rbd: warning: image already mapped\n/dev/rbd0\n" = "/dev/rbd0" ∧
    "rbd: warning: image already mapped\n/dev/rbd0"
      ≠ lastLineTrimmed "rbd: warning: image already mapped\n/dev/rbd0\n" := by
  decide

/-- C10, amended: if the trace of a `Format` call contains a successful `rbd map` with
output `O`, then `file -s` and `rbd unmap` are run on `TrimSpace O`, the whole output with
surrounding white space trimmed, and every `file -s`, `mkfs` and `rbd unmap` of the call
has `TrimSpace O` as its device argument. -/
theorem Format_device_is_trimmed_output (env : Env σ) (volumeData : Descriptor)
    (fsType : String) (s : σ) (p name O : String)
    (h : Event.exec p ["map", name] ⟨O, none⟩ ∈ (Format env volumeData fsType s).trace) :
    (∃ q r, Event.exec q ["-s", TrimSpace O] r ∈ (Format env volumeData fsType s).trace) ∧
    (∃ r, Event.exec p ["unmap", TrimSpace O] r ∈ (Format env volumeData fsType s).trace) ∧
    ∀ q d r,
      (Event.exec q ["-s", d] r ∈ (Format env volumeData fsType s).trace ∨
       Event.exec q [d] r ∈ (Format env volumeData fsType s).trace ∨
       Event.exec q ["unmap", d] r ∈ (Format env volumeData fsType s).trace) →
      d = TrimSpace O := by
  obtain ⟨filePath, pre, s3, r, hpre, -, htr⟩ :=
    Format_of_mapped env volumeData fsType s p name O h
  have hbody := inspectAndMkfs_events env filePath name fsType (TrimSpace O) s3
  obtain ⟨r0, rest, hb, -⟩ := inspectAndMkfs_shape env filePath name fsType (TrimSpace O) s3
  refine ⟨⟨filePath, r0, by rw [htr, hb]; simp⟩, ⟨r, by rw [htr]; simp⟩, ?_⟩
  have key : ∀ e ∈ (Format env volumeData fsType s).trace, ∀ q d r,
      (e = .exec q ["-s", d] r ∨ e = .exec q [d] r ∨ e = .exec q ["unmap", d] r) →
      d = TrimSpace O := by
    intro e he q d r hshape
    rw [htr] at he
    simp only [List.mem_append, List.mem_cons, List.mem_singleton, List.not_mem_nil,
      or_false] at he
    rcases he with ((he | rfl) | he) | rfl
    · have := (beforeMapped_kinds fsType p name e (hpre e he)).2.2.2.2 q d r
      rcases hshape with hs | hs | hs
      · exact absurd hs this.1
      · exact absurd hs this.2.1
      · exact absurd hs this.2.2
    · rcases hshape with hs | hs | hs <;> simp at hs
    · rcases hbody e he with ⟨q2, r2, rfl⟩ | ⟨r2, rfl⟩ | ⟨q2, r2, rfl⟩
      · rcases hshape with hs | hs | hs <;> simp at hs
        exact hs.2.1.symm
      · rcases hshape with hs | hs | hs <;> simp at hs
      · rcases hshape with hs | hs | hs <;> simp at hs
        exact hs.2.1.symm
    · rcases hshape with hs | hs | hs <;> simp at hs
      exact hs.2.1.symm
  intro q d r hmem
  rcases hmem with hm | hm | hm
  · exact key _ hm q d r (Or.inl rfl)
  · exact key _ hm q d r (Or.inr (Or.inl rfl))
  · exact key _ hm q d r (Or.inr (Or.inr rfl))

/-- C10 amended, on the host whose `rbd map` prints a warning line first. -/
theorem Format_device_is_trimmed_output_witness :
    Event.exec "/usr/bin/rbd" ["map", "vol1"]
        ⟨"rbd: warning: image already mapped\n/dev/rbd0\n", none⟩
      ∈ (Format hostWarning vol1 "ext4" {}).trace ∧
    ∃ q r, Event.exec q
        ["-s", TrimSpace "rbd: warning: image already mapped\n/dev/rbd0\n"] r
      ∈ (Format hostWarning vol1 "ext4" {}).trace :=
  ⟨by decide, (Format_device_is_trimmed_output hostWarning vol1 "ext4" {} "/usr/bin/rbd"
    "vol1" "rbd: warning: image already mapped\n/dev/rbd0\n" (by decide)).1⟩

end FormatTheorems

/-! ### Decoding: marshalling and sorting -/

theorem insertMember_perm (m : String × Json) (l : List (String × Json)) :
    (insertMember m l).Perm (m :: l) := by
  induction l with
  | nil => simp [insertMember]
  | cons x rest ih =>
    unfold insertMember
    split
    · exact List.Perm.refl _
    · exact (List.Perm.cons x ih).trans (List.Perm.swap m x rest)

theorem sortMembers_perm (l : List (String × Json)) : (sortMembers l).Perm l := by
  induction l with
  | nil => simp [sortMembers]
  | cons m rest ih =>
    unfold sortMembers
    exact (insertMember_perm m _).trans (List.Perm.cons m ih)

theorem marshalMembers_cons (k : String) (v : GoValue) (rest : List (String × GoValue))
    (ms : List (String × Json)) (h : marshalMembers ((k, v) :: rest) = some ms) :
    ∃ j ms', marshalValue v = some j ∧ marshalMembers rest = some ms' ∧ ms = (k, j) :: ms' := by
  rw [marshalMembers] at h
  cases hv : marshalValue v with
  | none => simp [hv] at h
  | some j =>
    cases hr : marshalMembers rest with
    | none => simp [hv, hr] at h
    | some ms' =>
      simp [hv, hr] at h
      exact ⟨j, ms', rfl, rfl, h.symm⟩

theorem marshalMembers_keys (d : List (String × GoValue)) (ms : List (String × Json))
    (h : marshalMembers d = some ms) : ms.map Prod.fst = d.map Prod.fst := by
  induction d generalizing ms with
  | nil =>
    simp [marshalMembers] at h
    subst h
    rfl
  | cons kv rest ih =>
    obtain ⟨k, v⟩ := kv
    obtain ⟨j, ms', -, hr, rfl⟩ := marshalMembers_cons k v rest ms h
    simp [ih ms' hr]

theorem marshalMembers_mem (d : List (String × GoValue)) (ms : List (String × Json))
    (h : marshalMembers d = some ms) (k : String) (v : GoValue) (hm : (k, v) ∈ d) :
    ∃ j, marshalValue v = some j ∧ (k, j) ∈ ms := by
  induction d generalizing ms with
  | nil => simp at hm
  | cons kv rest ih =>
    obtain ⟨k0, v0⟩ := kv
    obtain ⟨j, ms', hv, hr, rfl⟩ := marshalMembers_cons k0 v0 rest ms h
    rcases List.mem_cons.mp hm with heq | hm
    · simp only [Prod.mk.injEq] at heq
      obtain ⟨rfl, rfl⟩ := heq
      exact ⟨j, hv, by simp⟩
    · obtain ⟨j', hj', hmem⟩ := ih ms' hr hm
      exact ⟨j', hj', List.mem_cons_of_mem _ hmem⟩

theorem marshalMembers_mem_inv (d : List (String × GoValue)) (ms : List (String × Json))
    (h : marshalMembers d = some ms) (k : String) (j : Json) (hm : (k, j) ∈ ms) :
    ∃ v, marshalValue v = some j ∧ (k, v) ∈ d := by
  induction d generalizing ms with
  | nil =>
    simp [marshalMembers] at h
    subst h
    simp at hm
  | cons kv rest ih =>
    obtain ⟨k0, v0⟩ := kv
    obtain ⟨j0, ms', hv, hr, rfl⟩ := marshalMembers_cons k0 v0 rest ms h
    rcases List.mem_cons.mp hm with heq | hm
    · simp only [Prod.mk.injEq] at heq
      obtain ⟨rfl, rfl⟩ := heq
      exact ⟨v0, hv, by simp⟩
    · obtain ⟨v, hv', hmem⟩ := ih ms' hr hm
      exact ⟨v, hv', List.mem_cons_of_mem _ hmem⟩

theorem marshalMembers_lookup (d : List (String × GoValue)) (ms : List (String × Json))
    (h : marshalMembers d = some ms) (k : String) :
    ms.lookup k = (d.lookup k).bind marshalValue := by
  induction d generalizing ms with
  | nil =>
    simp [marshalMembers] at h
    subst h
    rfl
  | cons kv rest ih =>
    obtain ⟨k0, v0⟩ := kv
    obtain ⟨j0, ms', hv, hr, rfl⟩ := marshalMembers_cons k0 v0 rest ms h
    simp only [List.lookup_cons]
    cases hk : (k == k0) with
    | true => simp [hv]
    | false => simpa using ih ms' hr

theorem Marshal_of_members (d : Descriptor) (ms : List (String × Json))
    (h : marshalMembers d = some ms) : Marshal d = .ok (.object (sortMembers ms)) := by
  simp [Marshal, marshalValue, h]

/-- What `ToRBDVolume` computes once the descriptor has been marshalled to a document
within the depth limit. -/
theorem ToRBDVolume_of_members (d : Descriptor) (ms : List (String × Json))
    (h : marshalMembers d = some ms)
    (hdepth : jsonDepth (.object (sortMembers ms)) ≤ maxNestingDepth) :
    ToRBDVolume d =
      match ((sortMembers ms).foldl decodeMember ⟨{}, [], [], none⟩).savedError with
      | some err => .error err
      | none => .ok ((sortMembers ms).foldl decodeMember ⟨{}, [], [], none⟩).volume := by
  have hnot : ¬ maxNestingDepth < jsonDepth (.object (sortMembers ms)) := Nat.not_lt.mpr hdepth
  simp only [ToRBDVolume, Marshal_of_members d ms h, Unmarshal, hnot, if_false]
  cases ((sortMembers ms).foldl decodeMember ⟨{}, [], [], none⟩).savedError <;> rfl

theorem ToRBDVolume_of_deep (d : Descriptor) (ms : List (String × Json))
    (h : marshalMembers d = some ms)
    (hdepth : maxNestingDepth < jsonDepth (.object (sortMembers ms))) :
    ToRBDVolume d = .error (.malformed "exceeded max depth") := by
  simp [ToRBDVolume, Marshal_of_members d ms h, Unmarshal, hdepth]

theorem ToRBDVolume_of_unsupported (d : Descriptor) (h : marshalMembers d = none) :
    ToRBDVolume d = .error .unsupported := by
  simp [ToRBDVolume, Marshal, marshalValue, h]

/-! ### Decoding: field lookup and errors -/

theorem findField_jsonName (f : Field) : findField f.jsonName = some f := by
  cases f <;> rfl

theorem exactField_jsonName (f : Field) : exactField f.jsonName = some f := by
  cases f <;> rfl

theorem exactField_some (key : String) (f : Field) (h : exactField key = some f) :
    f.jsonName = key := by
  have := List.find?_some h
  simpa using this

theorem jsonName_injective (f g : Field) (h : f.jsonName = g.jsonName) : f = g := by
  have hf := findField_jsonName f
  rw [h, findField_jsonName g] at hf
  exact (Option.some.inj hf).symm

theorem saveError_none (e : Option JsonError) : saveError e none = e := by
  cases e <;> rfl

theorem decodeMember_savedError (st : DecodeState) (kv : String × Json) :
    ∃ x, (decodeMember st kv).savedError = saveError st.savedError x := by
  unfold decodeMember
  split <;> first
    | exact ⟨none, (saveError_none _).symm⟩
    | exact ⟨_, rfl⟩

theorem decodeMember_sticky (st : DecodeState) (kv : String × Json) (e : JsonError)
    (h : st.savedError = some e) : (decodeMember st kv).savedError = some e := by
  obtain ⟨x, hx⟩ := decodeMember_savedError st kv
  rw [hx, h]
  rfl

theorem foldl_decodeMember_sticky (l : List (String × Json)) (st : DecodeState)
    (e : JsonError) (h : st.savedError = some e) :
    (l.foldl decodeMember st).savedError = some e := by
  induction l generalizing st with
  | nil => exact h
  | cons kv rest ih =>
    simp only [List.foldl_cons]
    exact ih _ (decodeMember_sticky st kv e h)

theorem storeElems_clash (js : List Json) (backing : List String)
    (h : js.any jsonElemClashes = true) : (storeElems js backing).2 ≠ none := by
  induction js generalizing backing with
  | nil => simp at h
  | cons j rest ih =>
    rw [List.any_cons, Bool.or_eq_true] at h
    show saveError (storeString j (backing.headD "")).2 (storeElems rest backing.tail).2 ≠ none
    rcases h with h | h
    · cases j <;> simp [jsonElemClashes] at h <;> simp [storeString, saveError]
    · have := ih backing.tail h
      cases hs : (storeString j (backing.headD "")).2 with
      | some e => simp [saveError]
      | none => simpa [saveError] using this

theorem storeSlice_clash (j : Json) (old : Option (List String)) (spare : List String)
    (h : jsonClashes .strings j = true) : (storeSlice j old spare).2.2 ≠ none := by
  cases j with
  | null => simp [jsonClashes] at h
  | array xs =>
    have hx : xs.any jsonElemClashes = true := h
    exact storeElems_clash xs _ hx
  | bool b => simp [storeSlice]
  | number n => simp [storeSlice]
  | string s => simp [storeSlice]
  | object kvs => simp [storeSlice]

theorem storeString_clash (j : Json) (old : String)
    (h : jsonClashes .string j = true) : (storeString j old).2 ≠ none := by
  cases j <;> simp [jsonClashes] at h <;> simp [storeString]

theorem storeBool_clash (j : Json) (old : Bool)
    (h : jsonClashes .bool j = true) : (storeBool j old).2 ≠ none := by
  cases j <;> simp [jsonClashes] at h <;> simp [storeBool]

theorem saveError_ne_none (saved new : Option JsonError) (h : new ≠ none) :
    saveError saved new ≠ none := by
  cases saved with
  | some e => simp [saveError]
  | none => simpa [saveError] using h

theorem decodeMember_clash (st : DecodeState) (key : String) (j : Json)
    (f : Field) (hf : findField key = some f) (hj : jsonClashes f.kind j = true) :
    (decodeMember st (key, j)).savedError ≠ none := by
  cases f <;> simp only [decodeMember, hf] <;> apply saveError_ne_none
  · exact storeString_clash _ _ hj
  · exact storeBool_clash _ _ hj
  · exact storeString_clash _ _ hj
  · exact storeSlice_clash _ _ _ hj
  · exact storeSlice_clash _ _ _ hj
  · exact storeString_clash _ _ hj
  · exact storeString_clash _ _ hj
  · exact storeString_clash _ _ hj

theorem foldl_decodeMember_error (l : List (String × Json)) (kv : String × Json)
    (hmem : kv ∈ l) (hkv : ∀ st, (decodeMember st kv).savedError ≠ none)
    (st : DecodeState) : (l.foldl decodeMember st).savedError ≠ none := by
  induction l generalizing st with
  | nil => simp at hmem
  | cons a rest ih =>
    simp only [List.foldl_cons]
    rcases List.mem_cons.mp hmem with rfl | hmem
    · obtain ⟨e, he⟩ := Option.ne_none_iff_exists'.mp (hkv st)
      rw [foldl_decodeMember_sticky rest _ e he]
      simp
    · exact ih hmem _

/-- A descriptor with a clashing value under a recognized key does not decode. -/
theorem ToRBDVolume_error_of_clash (d : Descriptor) (h : hasClash d = true) :
    ∃ err, ToRBDVolume d = .error err := by
  cases hms : marshalMembers d with
  | none => exact ⟨_, ToRBDVolume_of_unsupported d hms⟩
  | some ms =>
    by_cases hdepth : maxNestingDepth < jsonDepth (.object (sortMembers ms))
    · exact ⟨_, ToRBDVolume_of_deep d ms hms hdepth⟩
    · simp only [hasClash, List.any_eq_true] at h
      obtain ⟨⟨k, v⟩, hmem, hkv⟩ := h
      cases hf : exactField k with
      | none => simp [hf] at hkv
      | some f =>
        simp only [hf] at hkv
        have hname := exactField_some k f hf
        obtain ⟨j, hj, hjm⟩ := marshalMembers_mem d ms hms k v hmem
        simp only [hj] at hkv
        have hfind : findField k = some f := by rw [← hname]; exact findField_jsonName f
        have herr := foldl_decodeMember_error (sortMembers ms) (k, j)
          ((sortMembers_perm ms).mem_iff.mpr hjm)
          (fun st => decodeMember_clash st k j f hfind hkv) ⟨{}, [], [], none⟩
        rw [ToRBDVolume_of_members d ms hms (Nat.not_lt.mp hdepth)]
        cases hfold : ((sortMembers ms).foldl decodeMember ⟨{}, [], [], none⟩).savedError with
        | none => exact absurd hfold herr
        | some e => exact ⟨e, rfl⟩

/-- C9, counterexample: in `{"name": "vol1", "hosts": [nil]}` the key `hosts` holds a
sequence with a non-string element, yet `ToRBDVolume` returns a record (`Hosts` is
`[""]`) and no error, and `Format` goes on to run commands. -/
theorem ToRBDVolume_accepts_nil_element :
    illTyped nilHost = true ∧
    ToRBDVolume nilHost = .ok { Name := "vol1", Hosts := some [""] } ∧
    (Format hostExt4 nilHost "ext4" {}).err = none ∧
    commands (Format hostExt4 nilHost "ext4" {}).trace
      = [.exec "/usr/bin/rbd" ["map", "vol1"] ⟨"/dev/rbd0\n", none⟩,
         .exec "/usr/bin/file" ["-s", "/dev/rbd0"] ⟨"/dev/rbd0: ext4 filesystem data", none⟩,
         .exec "/usr/bin/rbd" ["unmap", "/dev/rbd0"] ⟨"", none⟩] :=
  ⟨by decide, rfl, by decide, by decide⟩

/-- C9, amended: when a recognized key of the descriptor holds a value that `json.Marshal`
cannot write, or writes as a JSON value that is not `null` and is of another kind than the
declared type of the field (a string, a boolean, an array), or as an array with an element
that is neither a JSON string nor `null`, `ToRBDVolume` returns an error and no record,
and `Attach`, `Detach` and `Format` return that error without any interaction with the
environment. -/
theorem decode_rejects_clash (d : Descriptor) (h : hasClash d = true) :
    ∃ err, ToRBDVolume d = .error err ∧
      ∀ {σ : Type} (env : Env σ) (arg : String) (s : σ),
        Attach env d arg s = ⟨some (.json err), [], s⟩ ∧
        Detach env d arg s = ⟨some (.json err), [], s⟩ ∧
        Format env d arg s = ⟨some (.json err), [], s⟩ := by
  obtain ⟨err, herr⟩ := ToRBDVolume_error_of_clash d h
  refine ⟨err, herr, ?_⟩
  intro σ env arg s
  simp [Attach, Detach, Format, herr]

/-- C9 amended, on `{"name": "vol1", "hosts": true}`. -/
theorem decode_rejects_clash_witness :
    ∃ err, ToRBDVolume boolHosts = .error err ∧
      ∀ {σ : Type} (env : Env σ) (arg : String) (s : σ),
        Attach env boolHosts arg s = ⟨some (.json err), [], s⟩ ∧
        Detach env boolHosts arg s = ⟨some (.json err), [], s⟩ ∧
        Format env boolHosts arg s = ⟨some (.json err), [], s⟩ :=
  decode_rejects_clash boolHosts (by decide)

/-- A `[]byte` under `name` is written as a JSON string and decodes without error: it does
not clash. -/
theorem ToRBDVolume_bytes_name :
    hasClash bytesName = false ∧ ToRBDVolume bytesName = .ok { Name := "YWJj" } :=
  ⟨by decide, rfl⟩

/-- Cells that an earlier, longer array left in the backing array of `Hosts` show again
when a later array has `null` elements. -/
theorem ToRBDVolume_three_hosts :
    ToRBDVolume threeHosts = .ok { Hosts := some ["x", "b", "c"] } := rfl

/-! ### Decoding: well-typed descriptors -/

theorem storeElems_strings (js : List Json) (backing : List String)
    (h : js.all isJsonString = true) : storeElems js backing = (jsonStrings js, none) := by
  induction js generalizing backing with
  | nil => rfl
  | cons j rest ih =>
    rw [List.all_cons, Bool.and_eq_true] at h
    obtain ⟨hj, hrest⟩ := h
    cases j <;> simp [isJsonString] at hj
    simp [storeElems, storeString, jsonStrings, ih backing.tail hrest, saveError]

theorem decodeMember_frame (st : DecodeState) (key : String) (j : Json)
    (f : Field) (hf : findField key = some f) (g : Field) (hg : g ≠ f) :
    (decodeMember st (key, j)).volume.get g = st.volume.get g := by
  cases f <;> cases g <;> first
    | exact absurd rfl hg
    | simp [decodeMember, hf, RBDVolume.get]

theorem decodeMember_typed (st : DecodeState) (key : String) (j : Json)
    (f : Field) (hf : findField key = some f) (hj : jsonHasType f.kind j = true) :
    (decodeMember st (key, j)).savedError = st.savedError ∧
    (decodeMember st (key, j)).volume.get f = fieldValueOf f.kind j ∧
    ∀ g, g ≠ f → (decodeMember st (key, j)).volume.get g = st.volume.get g := by
  refine ⟨?_, ?_, fun g hg => decodeMember_frame st key j f hf g hg⟩
  · cases f <;> cases j <;> first
      | (exfalso; revert hj; simp [Field.kind, jsonHasType]; done)
      | (simp [decodeMember, hf, storeString, storeBool, saveError_none]; done)
      | (rename_i xs
         have hs : xs.all isJsonString = true := hj
         have hst := fun backing => storeElems_strings xs backing hs
         simp [decodeMember, hf, storeSlice, hst, saveError_none])
  · cases f <;> cases j <;> first
      | (exfalso; revert hj; simp [Field.kind, jsonHasType]; done)
      | (simp [decodeMember, hf, storeString, storeBool, RBDVolume.get, fieldValueOf,
          Field.kind]; done)
      | (rename_i xs
         have hs : xs.all isJsonString = true := hj
         have hst := fun backing => storeElems_strings xs backing hs
         simp [decodeMember, hf, storeSlice, hst, RBDVolume.get, fieldValueOf, Field.kind])

theorem decodeMember_skip (st : DecodeState) (kv : String × Json)
    (hf : findField kv.1 = none) : decodeMember st kv = st := by
  simp [decodeMember, hf]

theorem lookup_of_not_mem {β : Type} (l : List (String × β)) (k : String)
    (h : k ∉ l.map Prod.fst) : l.lookup k = none := by
  induction l with
  | nil => rfl
  | cons a rest ih =>
    obtain ⟨k0, v0⟩ := a
    simp only [List.map_cons, List.mem_cons, not_or] at h
    rw [List.lookup_cons]
    have : (k == k0) = false := by simpa using h.1
    rw [this]
    exact ih h.2

theorem lookup_eq_some_iff {β : Type} (l : List (String × β)) (k : String) (v : β)
    (hnd : (l.map Prod.fst).Nodup) : l.lookup k = some v ↔ (k, v) ∈ l := by
  induction l with
  | nil => simp
  | cons a rest ih =>
    obtain ⟨k0, v0⟩ := a
    simp only [List.map_cons, List.nodup_cons] at hnd
    rw [List.lookup_cons]
    by_cases hk : k = k0
    · subst hk
      simp only [beq_self_eq_true, Option.some.injEq, List.mem_cons, Prod.mk.injEq, true_and]
      constructor
      · intro h
        exact Or.inl h.symm
      · rintro (h | h)
        · exact h.symm
        · exact absurd (List.mem_map_of_mem Prod.fst h) hnd.1
    · have : (k == k0) = false := by simpa using hk
      rw [this]
      simp only [List.mem_cons, Prod.mk.injEq, hk, false_and, false_or]
      exact ih hnd.2

theorem lookup_perm {β : Type} (l l' : List (String × β)) (k : String) (hp : l.Perm l')
    (hnd : (l.map Prod.fst).Nodup) : l.lookup k = l'.lookup k := by
  have hnd' : (l'.map Prod.fst).Nodup := (hp.map Prod.fst).nodup_iff.mp hnd
  apply Option.ext
  intro v
  simp only [Option.mem_def]
  rw [lookup_eq_some_iff l k v hnd, lookup_eq_some_iff l' k v hnd', hp.mem_iff]

/-- Decoding a list of good members with distinct keys: no error is saved, and every
field ends up with the value under its tag, or keeps its old value when the tag is
absent. -/
theorem foldl_decodeMember_get (l : List (String × Json)) (st : DecodeState)
    (hnd : (l.map Prod.fst).Nodup) (hgood : ∀ kv ∈ l, goodMember kv) :
    (l.foldl decodeMember st).savedError = st.savedError ∧
    ∀ g, (l.foldl decodeMember st).volume.get g =
      match l.lookup g.jsonName with
      | some j => fieldValueOf g.kind j
      | none => st.volume.get g := by
  induction l generalizing st with
  | nil => exact ⟨rfl, fun g => rfl⟩
  | cons kv rest ih =>
    obtain ⟨k, j⟩ := kv
    simp only [List.map_cons, List.nodup_cons] at hnd
    have hrest := ih (decodeMember st (k, j)) hnd.2
      (fun kv h => hgood kv (List.mem_cons_of_mem _ h))
    simp only [List.foldl_cons]
    cases hf : findField k with
    | none =>
      rw [decodeMember_skip st (k, j) hf] at hrest ⊢
      refine ⟨hrest.1, fun g => ?_⟩
      rw [hrest.2 g, List.lookup_cons]
      have : (g.jsonName == k) = false := by
        rw [beq_eq_false_iff_ne]
        intro h
        rw [← h, findField_jsonName] at hf
        simp at hf
      rw [this]
    | some f =>
      obtain ⟨hname, htyped⟩ := hgood (k, j) (List.mem_cons_self _ _) f hf
      simp only at hname htyped
      obtain ⟨h1, h2, h3⟩ := decodeMember_typed st k j f hf htyped
      refine ⟨hrest.1.trans h1, fun g => ?_⟩
      rw [hrest.2 g, List.lookup_cons]
      by_cases hg : g = f
      · subst hg
        rw [lookup_of_not_mem rest g.jsonName (by rw [hname]; exact hnd.1)]
        simp [hname, h2]
      · have : (g.jsonName == k) = false := by
          rw [beq_eq_false_iff_ne, ← hname]
          exact fun h => hg (jsonName_injective g f h)
        rw [this]
        cases rest.lookup g.jsonName with
        | some j' => rfl
        | none => exact h3 g hg

theorem RBDVolume_ext (a b : RBDVolume) (h : ∀ g, a.get g = b.get g) : a = b := by
  have h1 := h .keyring
  have h2 := h .authEnabled
  have h3 := h .authUser
  have h4 := h .hosts
  have h5 := h .ports
  have h6 := h .name
  have h7 := h .accessMode
  have h8 := h .volumeType
  cases a
  cases b
  simp only [RBDVolume.get, FieldValue.str.injEq, FieldValue.flag.injEq,
    FieldValue.strs.injEq] at h1 h2 h3 h4 h5 h6 h7 h8
  simp [h1, h2, h3, h4, h5, h6, h7, h8]

theorem marshalElems_strings (xs : List GoValue) (h : xs.all isStringValue = true) :
    marshalElems xs = some ((stringsOf xs).map Json.string) := by
  induction xs with
  | nil => rfl
  | cons x rest ih =>
    rw [List.all_cons, Bool.and_eq_true] at h
    obtain ⟨hx, hrest⟩ := h
    cases x <;> simp [isStringValue] at hx
    simp [marshalElems, marshalValue, ih hrest, stringsOf]

theorem jsonStrings_map (xs : List String) : jsonStrings (xs.map Json.string) = xs := by
  induction xs with
  | nil => rfl
  | cons x rest ih => simp [jsonStrings, ih]

theorem all_isJsonString_map (xs : List String) :
    (xs.map Json.string).all isJsonString = true := by
  induction xs with
  | nil => rfl
  | cons x rest ih => simp [isJsonString]

theorem projection_get_absent (d : Descriptor) (g : Field)
    (h : d.lookup g.jsonName = none) :
    (projection d).get g = ({} : RBDVolume).get g := by
  cases g <;> simp only [Field.jsonName] at h <;>
    simp [projection, RBDVolume.get, getString, getBool, getStrings, h]

theorem projection_get_present (d : Descriptor) (g : Field) (v : GoValue)
    (h : d.lookup g.jsonName = some v) (ht : hasDeclaredType g.kind v = true) :
    ∃ j, marshalValue v = some j ∧ jsonHasType g.kind j = true ∧
      (projection d).get g = fieldValueOf g.kind j := by
  cases g <;> simp only [Field.jsonName] at h <;> cases v <;> first
    | (exfalso; revert ht; simp [Field.kind, hasDeclaredType]; done)
    | (refine ⟨_, rfl, rfl, ?_⟩
       simp [projection, RBDVolume.get, getString, getBool, h, fieldValueOf, Field.kind])
    | (rename_i xs
       have hx : xs.all isStringValue = true := ht
       refine ⟨.array ((stringsOf xs).map Json.string), ?_, ?_, ?_⟩
       · simp [marshalValue, marshalElems_strings xs hx]
       · exact all_isJsonString_map (stringsOf xs)
       · simp [projection, RBDVolume.get, getStrings, h, fieldValueOf, Field.kind,
           jsonStrings_map])

theorem encodeVolume_mem (v : RBDVolume) (g : Field) (j : Json)
    (h : v.get g = fieldValueOf g.kind j) (hj : jsonHasType g.kind j = true) :
    (g.jsonName, j) ∈ encodeVolume v := by
  cases g <;> cases j <;> first
    | (exfalso; revert hj; simp [Field.kind, jsonHasType]; done)
    | (simp [RBDVolume.get, fieldValueOf, Field.kind] at h
       simp [encodeVolume, Field.jsonName, h]
       done)
    | (rename_i xs
       have hx : xs.all isJsonString = true := hj
       simp [RBDVolume.get, fieldValueOf, Field.kind] at h
       have hmap : (jsonStrings xs).map Json.string = xs := by
         clear h hj
         induction xs with
         | nil => rfl
         | cons x rest ih =>
           rw [List.all_cons, Bool.and_eq_true] at hx
           obtain ⟨h1, h2⟩ := hx
           cases x <;> simp [isJsonString] at h1
           simp [jsonStrings, ih h2]
       simp [encodeVolume, Field.jsonName, h, encodeStrings, hmap])

/-- C8, counterexample: the descriptor `{"Name": "vol1"}` has no recognized key at all, so
all its recognized keys are well typed, yet `ToRBDVolume` fills `Name` with `"vol1"`
(object keys are matched to field tags case-insensitively), which is not the descriptor's
value under `name` (absent, so `""`).  And `{"name": "vol1", "size": NaN}`, whose only
recognized key is well typed, does not decode at all. -/
theorem decode_matches_capitalised_key :
    (keysUnique capitalName ∧ wellTyped capitalName = true ∧
      ToRBDVolume capitalName = .ok { Name := "vol1" } ∧
      (projection capitalName).Name = "" ∧
      ToRBDVolume capitalName ≠ .ok (projection capitalName)) ∧
    (keysUnique withNaN ∧ wellTyped withNaN = true ∧
      ToRBDVolume withNaN = .error .unsupported) := by
  refine ⟨⟨by unfold keysUnique; decide, by decide, rfl, by decide, ?_⟩,
    by unfold keysUnique; decide, by decide, rfl⟩
  intro h
  have h2 : ({ Name := "vol1" } : RBDVolume) = projection capitalName := Except.ok.inj h
  revert h2
  decide

/-- C8, amended: for every descriptor that `json.Marshal` serializes to a document nested
no deeper than `maxNestingDepth`, whose keys matched to a field by `json.Unmarshal` are the
field tags letter for letter, and whose recognized keys hold values of the declared types
(a Go `string` that is valid UTF-8, a Go `bool`, a slice of such strings), `ToRBDVolume`
succeeds and returns the record whose fields are the descriptor's values under the
corresponding keys (zero value for absent keys), sequences in their order; re-encoding
that record gives, for every recognized key of the descriptor, the key with the JSON form
of the descriptor's value. -/
theorem decode_round_trip (d : Descriptor) (hu : keysUnique d)
    (hm : marshalsWithinDepth d = true) (hk : exactKeys d = true)
    (ht : wellTyped d = true) :
    ToRBDVolume d = .ok (projection d) ∧
    ∀ k v f, (k, v) ∈ d → exactField k = some f →
      ∃ j, marshalValue v = some j ∧ (k, j) ∈ encodeVolume (projection d) := by
  have htyped : ∀ (k : String) (v : GoValue) (f : Field), (k, v) ∈ d → f.jsonName = k →
      hasDeclaredType f.kind v = true := by
    intro k v f hmem hname
    simp only [wellTyped, List.all_eq_true] at ht
    have := ht (k, v) hmem
    simp only [← hname, exactField_jsonName] at this
    exact this
  have hlook : ∀ (k : String) (v : GoValue), (k, v) ∈ d → d.lookup k = some v :=
    fun k v hmem => (lookup_eq_some_iff d k v hu).mpr hmem
  constructor
  · cases hms : marshalMembers d with
    | none => simp [marshalsWithinDepth, Marshal, marshalValue, hms] at hm
    | some ms =>
      have hdepth : jsonDepth (.object (sortMembers ms)) ≤ maxNestingDepth := by
        simpa [marshalsWithinDepth, Marshal_of_members d ms hms] using hm
      have hkeys : ((sortMembers ms).map Prod.fst).Nodup := by
        rw [((sortMembers_perm ms).map Prod.fst).nodup_iff, marshalMembers_keys d ms hms]
        exact hu
      have hgood : ∀ kv ∈ sortMembers ms, goodMember kv := by
        intro kv hkv f hf
        obtain ⟨k, j⟩ := kv
        have hkv' := (sortMembers_perm ms).mem_iff.mp hkv
        obtain ⟨v, hv, hmem⟩ := marshalMembers_mem_inv d ms hms k j hkv'
        simp only [exactKeys, List.all_eq_true] at hk
        have hname : f.jsonName = k := by
          have := hk (k, v) hmem
          simp only [hf] at this
          simpa using this
        obtain ⟨j', hj', hjt, -⟩ := projection_get_present d f v
          (by rw [hname]; exact hlook k v hmem) (htyped k v f hmem hname)
        rw [hv] at hj'
        cases hj'
        exact ⟨hname, hjt⟩
      obtain ⟨herr, hget⟩ :=
        foldl_decodeMember_get (sortMembers ms) ⟨{}, [], [], none⟩ hkeys hgood
      rw [ToRBDVolume_of_members d ms hms hdepth]
      simp only at herr
      simp only [herr]
      congr 1
      apply RBDVolume_ext
      intro g
      rw [hget g, lookup_perm (sortMembers ms) ms g.jsonName (sortMembers_perm ms) hkeys,
        marshalMembers_lookup d ms hms]
      cases hl : d.lookup g.jsonName with
      | none =>
        simp only [Option.none_bind]
        exact (projection_get_absent d g hl).symm
      | some v =>
        have hmem := (lookup_eq_some_iff d g.jsonName v hu).mp hl
        obtain ⟨j, hj, -, hp⟩ :=
          projection_get_present d g v hl (htyped g.jsonName v g hmem rfl)
        simp only [Option.some_bind, hj]
        exact hp.symm
  · intro k v f hmem hf
    have hname := exactField_some k f hf
    subst hname
    obtain ⟨j, hj, hjt, hp⟩ :=
      projection_get_present d f v (hlook _ v hmem) (htyped _ v f hmem rfl)
    exact ⟨j, hj, encodeVolume_mem (projection d) f j hp hjt⟩

/-- C8 amended, on a descriptor with a name, two hosts, two ports, the auth flag and an
unrecognized key. -/
theorem decode_round_trip_witness :
    ToRBDVolume fullVolume
      = .ok { Name := "vol1", Hosts := some ["10.0.0.2", "10.0.0.1"],
              Ports := some ["6789", "6789"], AuthEnabled := true } ∧
    ∀ k v f, (k, v) ∈ fullVolume → exactField k = some f →
      ∃ j, marshalValue v = some j ∧ (k, j) ∈ encodeVolume (projection fullVolume) :=
  decode_round_trip fullVolume (by unfold keysUnique; decide) (by decide) (by decide)
    (by decide)

end Drivers
